import Mathlib

/-!
Verification of the airregi forecasting pipeline against its specification.

This file gives a shallow embedding, in Lean 4, of the algorithmic core of
the repository:

* `features/engineering.py` — `create_features`, `calculate_trend`,
  `create_prediction_features`;
* `models/lightgbm_model.py` — the data handling of `LightGBMPredictor.train`,
  the interval post-processing of `LightGBMPredictor.predict`, and
  `_calculate_mape`;
* `models/model_cache.py` — `ModelCache.get` / `set` / `clear_user_cache`.

Conventions of the embedding:

* Machine floats are modelled by `ℚ` together with the explicit non-finite
  values of IEEE arithmetic, packaged as `PVal` (`fin q`, `nan`, `inf`,
  `ninf`).  Pandas/NumPy elementwise operations are translated with their
  IEEE semantics on these values (`0/0 = nan`, `x/0 = ±inf`, …).
* External numeric kernels that are irrational on ℚ (`np.sin`, `np.cos` of
  `2π·k/7`, the square root inside `rolling().std()`) are parameters of the
  feature builder (`FeatConfig`); the claims checked here depend only on
  their totality, which is a true property of the library functions.
* Accessors of a parsed pandas timestamp (`.dt.year`, `.dt.month`, …) and
  the external `jpholiday` calendar are modelled as fields of a `Date`
  record; the sort key is the epoch-day field.
* Wall-clock time (`datetime.now()`) is an explicit rational parameter of
  the cache operations, measured in hours so that `timedelta(hours=ttl)`
  is plain addition.
* The LightGBM regressors themselves are external; the embedded `train`
  and `predict` cover exactly the repository's own data handling around
  them (clean-row filtering, chronological split, sample accounting, and
  interval post-processing), with the ensemble's point predictions taken
  as arbitrary rational inputs.
-/

/-- A pandas/NumPy float cell: a finite rational, NaN, or a signed infinity. -/
inductive PVal where
  | fin : ℚ → PVal
  | nan : PVal
  | inf : PVal
  | ninf : PVal
deriving DecidableEq, Repr

namespace PVal

/-- IEEE addition on cells. -/
def add : PVal → PVal → PVal
  | nan, _ => nan
  | _, nan => nan
  | inf, ninf => nan
  | ninf, inf => nan
  | inf, _ => inf
  | _, inf => inf
  | ninf, _ => ninf
  | _, ninf => ninf
  | fin a, fin b => fin (a + b)

/-- Divide a cell by a positive rational (used for means, where the divisor
is a window count). -/
def divPos : PVal → ℚ → PVal
  | fin a, q => fin (a / q)
  | nan, _ => nan
  | inf, _ => inf
  | ninf, _ => ninf

/-- Is the cell a finite value? -/
def isFin : PVal → Bool
  | fin _ => true
  | _ => false

/-- Sum of a list of cells. -/
def lsum (l : List PVal) : PVal := l.foldl add (fin 0)

end PVal

/-- IEEE division of two finite rationals, producing a cell: division by
zero gives `nan` for `0/0` and a signed infinity otherwise. -/
def qdiv (a b : ℚ) : PVal :=
  if b = 0 then
    if a = 0 then PVal.nan else if 0 < a then PVal.inf else PVal.ninf
  else PVal.fin (a / b)

/-- Python `key.startswith(user_id)`, on code points. -/
def strStartsWith (u s : String) : Bool := u.data.isPrefixOf s.data

section ModelCache

/-! ## `models/model_cache.py` — `ModelCache`

The cache is a Python `dict` keyed by strings; it is embedded as an
association list in insertion order.  `datetime.now()` is an explicit
`now : ℚ` argument, in hours. -/

variable {α : Type}

/-- One cache slot: `{"value": …, "expires_at": …, "created_at": …}`. -/
structure CacheEntry (α : Type) where
  value : α
  expiresAt : ℚ
  createdAt : ℚ
deriving DecidableEq, Repr

/-- Python `dict` assignment `self.cache[key] = entry`: replace in place if
the key is present, append otherwise. -/
def dictSet (l : List (String × CacheEntry α)) (k : String) (e : CacheEntry α) :
    List (String × CacheEntry α) :=
  if l.any (fun p => p.1 == k) then
    l.map (fun p => if p.1 == k then (k, e) else p)
  else l ++ [(k, e)]

/-- `ModelCache.set(key, value, ttl_hours)`. -/
def mcSet (l : List (String × CacheEntry α)) (now : ℚ) (k : String) (v : α)
    (ttlHours : ℚ) : List (String × CacheEntry α) :=
  dictSet l k ⟨v, now + ttlHours, now⟩

/-- `ModelCache.get(key)`: the looked-up value (if present and unexpired)
together with the cache after the lazy deletion of an expired entry. -/
def mcGet (l : List (String × CacheEntry α)) (now : ℚ) (k : String) :
    Option α × List (String × CacheEntry α) :=
  match l.lookup k with
  | some e =>
      if now < e.expiresAt then (some e.value, l)
      else (none, l.filter (fun p => !(p.1 == k)))
  | none => (none, l)

/-- `ModelCache.clear_user_cache(user_id)`: delete every key for which
`key.startswith(user_id)`. -/
def clear_user_cache (l : List (String × CacheEntry α)) (u : String) :
    List (String × CacheEntry α) :=
  l.filter (fun p => !(strStartsWith u p.1))

end ModelCache

section Predictor

/-! ## `models/lightgbm_model.py` — `LightGBMPredictor.predict`

The two gradient-boosted ensembles are external; their point outputs enter
as arbitrary rationals.  The embedded function is the post-processing of
lines 184–205: z-score selection, `model_metrics.get(..., pred * 0.15)`,
`max(0, int(...))` for the visitor target and `max(0, float(...))` for the
sales target. -/

/-- The predictor state that `predict` reads: whether `train` has run, and
the `model_metrics` entries it consults (absent key ↦ `none`). -/
structure PredictorState where
  trained : Bool
  visitorRmse : Option ℚ
  salesRmse : Option ℚ
deriving Repr

/-- Python `int(x)` on a float: truncation toward zero. -/
def truncQ (q : ℚ) : ℤ := if 0 ≤ q then ⌊q⌋ else ⌈q⌉

/-- `z_score = 1.645 if confidence_level == 0.9 else 1.96`. -/
def zScore (conf : ℚ) : ℚ := if conf = 9/10 then 1645/1000 else 196/100

/-- The visitor-side result dictionary (integer-valued bounds). -/
structure VisitorResult where
  value : ℤ
  confidenceLower : ℤ
  confidenceUpper : ℤ
  std : ℚ
deriving DecidableEq, Repr

/-- The sales-side result dictionary (float-valued bounds). -/
structure SalesResult where
  value : ℚ
  confidenceLower : ℚ
  confidenceUpper : ℚ
  std : ℚ
deriving DecidableEq, Repr

/-- `LightGBMPredictor.predict`, given the ensembles' point predictions. -/
def predict (st : PredictorState) (visitorPred salesPred conf : ℚ) :
    Except String (VisitorResult × SalesResult) :=
  if st.trained = false then .error "Models not trained. Call train() first."
  else
    let z := zScore conf
    let vstd := st.visitorRmse.getD (visitorPred * (15/100))
    let sstd := st.salesRmse.getD (salesPred * (15/100))
    .ok
      (⟨max 0 (truncQ visitorPred),
        max 0 (truncQ (visitorPred - z * vstd)),
        max 0 (truncQ (visitorPred + z * vstd)), vstd⟩,
       ⟨max 0 salesPred,
        max 0 (salesPred - z * sstd),
        max 0 (salesPred + z * sstd), sstd⟩)

end Predictor

/-- Interval formula as worded by the specification: the point estimate
clamped at zero, and `value ± z·std` with each bound clamped at zero.
(Spec-side definition, used to compare `predict` against the spec's words.) -/
def specInterval (pred std z : ℚ) : ℚ × ℚ × ℚ :=
  (max 0 pred, max 0 (pred - z * std), max 0 (pred + z * std))

/-- Spec-side error scale: the recorded validation RMSE for the target when
available, else 15% of the point estimate.  (Spec-side definition.) -/
def specStd (rmse : Option ℚ) (pred : ℚ) : ℚ := rmse.getD (15/100 * pred)


section TrendDefs

/-! ## `features/engineering.py` — `calculate_trend`

The rolling trend of a target column.  The column fed to `calculate_trend`
in `create_features` is a target column of the aggregated history, so its
cells are finite; `min_periods=2` therefore compares the window length
against 2, and the inner guards of `_trend` (window shorter than 2, fewer
than 2 non-NaN points) are unreachable.  `scipy.stats.linregress` on at
least two distinct time indices is the closed-form OLS slope below
(numerator and denominator both scaled by the window length); the
`except` branch that absorbs numerical failure into slope 0 coincides
with ℚ's division-by-zero convention. -/

/-- Σ t over a list of (time, value) points. -/
def sumX (l : List (ℚ × ℚ)) : ℚ := (l.map Prod.fst).sum

/-- Σ x over a list of (time, value) points. -/
def sumY (l : List (ℚ × ℚ)) : ℚ := (l.map Prod.snd).sum

/-- Σ t·x over a list of (time, value) points. -/
def sumXY (l : List (ℚ × ℚ)) : ℚ := (l.map (fun p => p.1 * p.2)).sum

/-- Σ t² over a list of (time, value) points. -/
def sumXX (l : List (ℚ × ℚ)) : ℚ := (l.map (fun p => p.1 ^ 2)).sum

/-- n·Σtx − Σt·Σx: the OLS slope numerator. -/
def covNum (l : List (ℚ × ℚ)) : ℚ := l.length * sumXY l - sumX l * sumY l

/-- n·Σt² − (Σt)²: the OLS slope denominator. -/
def varNum (l : List (ℚ × ℚ)) : ℚ := l.length * sumXX l - sumX l ^ 2

/-- The window values paired with their 0-based time index `t = arange(len(x))`. -/
def olsPts (w : List ℚ) : List (ℚ × ℚ) := w.enum.map (fun p => ((p.1 : ℚ), p.2))

/-- `_trend`'s `stats.linregress(t, x).slope` on a window listed in time
order (0 on a zero denominator, as the `except` branch returns 0). -/
def olsSlope (w : List ℚ) : ℚ := covNum (olsPts w) / varNum (olsPts w)

/-- The trailing observations that `rolling(window=w)` presents at row `i`
(truncated at the start of the series). -/
def windowAt (xs : List ℚ) (i window : ℕ) : List ℚ :=
  (xs.take (i + 1)).drop (i + 1 - window)

/-- `calculate_trend`: `series.rolling(window, min_periods=2).apply(_trend)`
on a finite-valued column — rows whose window holds fewer than 2
observations get NaN, the rest the OLS slope of the window. -/
def calculate_trend (xs : List ℚ) (window : ℕ) : List PVal :=
  (List.range xs.length).map (fun i =>
    if (windowAt xs i window).length < 2 then PVal.nan
    else PVal.fin (olsSlope (windowAt xs i window)))

end TrendDefs


section TrainDefs

/-! ## `models/lightgbm_model.py` — data handling of `LightGBMPredictor.train`

The regressor fitting itself is external (LightGBM); the embedded `train`
covers the repository's own data handling: feature-column selection,
`dropna` over the feature and target columns, the 30-row threshold, the
chronological `train_test_split(test_size=0.2, random_state=42,
shuffle=False)` — with `shuffle=False` scikit-learn takes the trailing
`ceil(0.2·n)` rows as the validation slice and the leading rest as the
training slice — and the recorded sample counts
(`training_samples = len(X_train)`, `validation_samples = len(X_val)`).
Rows are tracked by index into the dataframe, whose order `train` never
changes. -/

/-- Is column `c` part of `dropna`'s subset `feature_cols + [tv, ts]`?
`feature_cols` is every column except the targets, `date`, `user_id` and
`id`, so the subset is everything except those three identifier columns
(with the targets kept). -/
def inDropSubset (tv ts c : String) : Bool :=
  c == tv || c == ts || !(["date", "user_id", "id"].contains c)

/-- Row `i` survives `df.dropna(subset=feature_cols + [tv, ts])`: no cell
of a subset column at row `i` is NaN. -/
def cleanRow (df : List (String × List PVal)) (tv ts : String) (i : ℕ) : Bool :=
  df.all (fun c =>
    if inDropSubset tv ts c.1 then !(c.2.getD i PVal.nan == PVal.nan) else true)

/-- Number of rows of the dataframe (the common column length). -/
def dfRowCount (df : List (String × List PVal)) : ℕ :=
  match df with
  | [] => 0
  | c :: _ => c.2.length

/-- The indices of the clean rows, in dataframe (chronological) order. -/
def cleanIdx (df : List (String × List PVal)) (tv ts : String) : List ℕ :=
  (List.range (dfRowCount df)).filter (cleanRow df tv ts)

/-- scikit-learn's test-set size for `test_size=0.2`: `ceil(n / 5)`. -/
def nTestOf (n : ℕ) : ℕ := (n + 4) / 5

/-- What `train` returns about the split: the clean-row indices used for
fitting and validation, and the recorded sample counts. -/
structure TrainResult where
  trainIdx : List ℕ
  valIdx : List ℕ
  trainingSamples : ℕ
  validationSamples : ℕ
deriving DecidableEq, Repr

/-- `LightGBMPredictor.train`: drop unclean rows, fail below 30 of them,
else split chronologically 80/20 with the validation slice last. -/
def train (df : List (String × List PVal)) (tv ts : String) :
    Except String TrainResult :=
  let clean := cleanIdx df tv ts
  if clean.length < 30 then
    Except.error "Insufficient clean data for training"
  else
    let nTrain := clean.length - nTestOf clean.length
    Except.ok ⟨clean.take nTrain, clean.drop nTrain,
      (clean.take nTrain).length, (clean.drop nTrain).length⟩


/-- A concrete 30-row feature table (three columns, all cells finite) used
to witness the training contract. -/
def exTrainDF : List (String × List PVal) :=
  [("visitor_count", List.replicate 30 (PVal.fin 1)),
   ("sales_amount", List.replicate 30 (PVal.fin 2)),
   ("day_of_week", List.replicate 30 (PVal.fin 3))]

end TrainDefs


section FeatureDefs

/-! ## `features/engineering.py` — `create_features`

The column builders below translate the pandas pipeline column by column.
Input cells (the aggregated `visitor_count` / `sales_amount` history) are
finite rationals; derived columns live in `PVal` so that the NaN of a
short lag/shift/std window and the ±infinity of the zero-denominator
percentage changes are explicit.  Accessors of the parsed timestamp
(`.dt.year`, `.dt.month`, …) and the external `jpholiday` calendar are
fields of `Date`; `np.sin`/`np.cos` of `2π·k/7` (or `/12`) and the square
root inside `rolling().std()` are irrational on ℚ and enter as opaque
total maps in `FeatConfig` — the claims below use only their totality. -/

/-- The timestamp accessors of one parsed date plus the holiday oracle.
The sort key of the series is `epochDay`. -/
structure Date where
  epochDay : ℤ
  year : ℤ
  month : ℤ
  day : ℤ
  dayOfWeek : ℤ
  dayOfYear : ℤ
  weekOfYear : ℤ
  quarter : ℤ
  isHoliday : Bool
deriving DecidableEq, Repr

/-- One row of the aggregated daily history (the DailySeries). -/
structure InRow where
  date : Date
  visitor_count : ℚ
  sales_amount : ℚ
deriving DecidableEq, Repr

/-- The opaque numeric kernels used by `create_features`. -/
structure FeatConfig where
  dowSin : ℤ → ℚ
  dowCos : ℤ → ℚ
  monthSin : ℤ → ℚ
  monthCos : ℤ → ℚ
  sqrtQ : ℚ → ℚ

/-- `df.sort_values("date")` comparison. -/
def rowLE (a b : InRow) : Prop := a.date.epochDay ≤ b.date.epochDay

instance : DecidableRel rowLE := fun _ _ => Int.decLe _ _

instance : IsTotal InRow rowLE := ⟨fun _ _ => le_total _ _⟩

instance : IsTrans InRow rowLE := ⟨fun _ _ _ => le_trans⟩

/-- A finite (never-missing) column. -/
def finCol (xs : List ℚ) : List PVal := xs.map PVal.fin

/-- An `astype(int)` flag column. -/
def boolCol (bs : List Bool) : List PVal :=
  bs.map (fun b => PVal.fin (if b then 1 else 0))

/-- An integer-valued calendar column. -/
def intCol (zs : List ℤ) : List PVal :=
  zs.map (fun z => PVal.fin (Int.cast z))

/-- `rolling(window=w, min_periods=1).mean()` on a finite column: the
window is never empty, so no cell is missing. -/
def rollingMeanQ (w : ℕ) (xs : List ℚ) : List PVal :=
  (List.range xs.length).map (fun i =>
    let win := windowAt xs i w
    PVal.fin (win.sum / win.length))

/-- `rolling(window=w, min_periods=1).std()` (sample std, ddof = 1): a
single observation gives NaN. -/
def rollingStdQ (sq : ℚ → ℚ) (w : ℕ) (xs : List ℚ) : List PVal :=
  (List.range xs.length).map (fun i =>
    let win := windowAt xs i w
    if win.length < 2 then PVal.nan
    else PVal.fin (sq
      ((win.map (fun x => (x - win.sum / win.length) ^ 2)).sum /
        ((win.length : ℚ) - 1))))

/-- `rolling(window=w, min_periods=1).max()`. -/
def rollingMaxQ (w : ℕ) (xs : List ℚ) : List PVal :=
  (List.range xs.length).map (fun i =>
    match windowAt xs i w with
    | [] => PVal.nan
    | x :: rest => PVal.fin (rest.foldl max x))

/-- `rolling(window=w, min_periods=1).min()`. -/
def rollingMinQ (w : ℕ) (xs : List ℚ) : List PVal :=
  (List.range xs.length).map (fun i =>
    match windowAt xs i w with
    | [] => PVal.nan
    | x :: rest => PVal.fin (rest.foldl min x))

/-- `shift(n)`: the first `n` cells are missing. -/
def lagCol (n : ℕ) (xs : List ℚ) : List PVal :=
  (List.range xs.length).map (fun i =>
    if i < n then PVal.nan else PVal.fin (xs.getD (i - n) 0))

/-- `diff(n)`. -/
def diffCol (n : ℕ) (xs : List ℚ) : List PVal :=
  (List.range xs.length).map (fun i =>
    if i < n then PVal.nan else PVal.fin (xs.getD i 0 - xs.getD (i - n) 0))

/-- `pct_change(n)`: `(x_i − x_{i−n}) / x_{i−n}` with IEEE division. -/
def pctChangeCol (n : ℕ) (xs : List ℚ) : List PVal :=
  (List.range xs.length).map (fun i =>
    if i < n then PVal.nan
    else qdiv (xs.getD i 0 - xs.getD (i - n) 0) (xs.getD (i - n) 0))

/-- `(x − lag7) / (lag7 + 1e-5)`: missing while the lag is missing. -/
def wowGrowthCol (xs : List ℚ) : List PVal :=
  (List.range xs.length).map (fun i =>
    if i < 7 then PVal.nan
    else qdiv (xs.getD i 0 - xs.getD (i - 7) 0) (xs.getD (i - 7) 0 + 1/100000))

/-- `sales / (visitors + 1e-5)` with IEEE division. -/
def avgSpendCol (sales visitors : List ℚ) : List PVal :=
  (List.range visitors.length).map (fun i =>
    qdiv (sales.getD i 0) (visitors.getD i 0 + 1/100000))

/-- `rolling(window=w, min_periods=1).mean()` on a column that may hold
NaN/±∞: NaN observations are skipped, an all-NaN window is NaN. -/
def rollingMeanP (w : ℕ) (xs : List PVal) : List PVal :=
  (List.range xs.length).map (fun i =>
    let win := (xs.take (i + 1)).drop (i + 1 - w)
    let obs := win.filter (fun v => !(v == PVal.nan))
    if obs.length = 0 then PVal.nan
    else PVal.divPos (PVal.lsum obs) obs.length)

/-- `groupby("day_of_week")[col].transform(expanding().mean().shift(1))`:
the mean of the prior same-weekday values, missing when there are none. -/
def dowAvgCol (dows : List ℤ) (xs : List ℚ) : List PVal :=
  (List.range xs.length).map (fun i =>
    let prior := ((List.range i).filter
        (fun j => dows.getD j 0 = dows.getD i 0)).map (fun j => xs.getD j 0)
    if prior.length = 0 then PVal.nan
    else PVal.fin (prior.sum / prior.length))

/-- `shift(-1).fillna(0)` on a finite column. -/
def shiftNext (xs : List ℚ) : List ℚ :=
  (List.range xs.length).map (fun i => xs.getD (i + 1) 0)

/-- `shift(1).fillna(0)` on a finite column. -/
def shiftPrev (xs : List ℚ) : List ℚ :=
  (List.range xs.length).map (fun i => if i = 0 then 0 else xs.getD (i - 1) 0)

/-- `fillna(method="ffill")` with running state `prev`. -/
def ffillAux (prev : PVal) : List PVal → List PVal
  | [] => []
  | x :: xs =>
      let y := if x = PVal.nan then prev else x
      y :: ffillAux y xs

/-- `fillna(method="ffill")`. -/
def ffillCol (l : List PVal) : List PVal := ffillAux PVal.nan l

/-- `fillna(method="bfill")`. -/
def bfillCol (l : List PVal) : List PVal := (ffillAux PVal.nan l.reverse).reverse

/-- `fillna(0)`. -/
def fillZeroCol (l : List PVal) : List PVal :=
  l.map (fun v => if v = PVal.nan then PVal.fin 0 else v)

/-- `replace([inf, -inf], 0)`. -/
def replaceInfCol (l : List PVal) : List PVal :=
  l.map (fun v => if v = PVal.inf ∨ v = PVal.ninf then PVal.fin 0 else v)

/-- The final missing-value policy of `create_features`, column-wise:
forward fill, then backward fill, then fill 0, then replace infinities. -/
def cleanupCol (l : List PVal) : List PVal :=
  replaceInfCol (fillZeroCol (bfillCol (ffillCol l)))

/-- The 17 engineered columns of one target (rolling stats, lags,
differences, percentage changes, growth, trends), in code order. -/
def targetBlock (sq : ℚ → ℚ) (name : String) (xs : List ℚ) :
    List (String × List PVal) :=
  [(name ++ "_ma7", rollingMeanQ 7 xs),
   (name ++ "_ma14", rollingMeanQ 14 xs),
   (name ++ "_ma28", rollingMeanQ 28 xs),
   (name ++ "_std7", rollingStdQ sq 7 xs),
   (name ++ "_max7", rollingMaxQ 7 xs),
   (name ++ "_min7", rollingMinQ 7 xs),
   (name ++ "_lag1", lagCol 1 xs),
   (name ++ "_lag7", lagCol 7 xs),
   (name ++ "_lag14", lagCol 14 xs),
   (name ++ "_lag28", lagCol 28 xs),
   (name ++ "_diff1", diffCol 1 xs),
   (name ++ "_diff7", diffCol 7 xs),
   (name ++ "_pct_change7", pctChangeCol 7 xs),
   (name ++ "_pct_change14", pctChangeCol 14 xs),
   (name ++ "_wow_growth", wowGrowthCol xs),
   (name ++ "_trend_7d", calculate_trend xs 7),
   (name ++ "_trend_14d", calculate_trend xs 14)]

/-- The weather placeholder columns (default 0). -/
def weatherCols (n : ℕ) : List (String × List PVal) :=
  [("weather_code", List.replicate n (PVal.fin 0)),
   ("temp_avg", List.replicate n (PVal.fin 0)),
   ("temp_range", List.replicate n (PVal.fin 0)),
   ("precipitation", List.replicate n (PVal.fin 0)),
   ("is_rainy", List.replicate n (PVal.fin 0)),
   ("is_hot", List.replicate n (PVal.fin 0)),
   ("is_cold", List.replicate n (PVal.fin 0)),
   ("comfort_index", List.replicate n (PVal.fin 0))]

/-- The engineered columns of `create_features`, before the missing-value
policy, in code order, built over the already-sorted rows `s`. -/
def preCols (cfg : FeatConfig) (includeWeather : Bool) (s : List InRow) :
    List (String × List PVal) :=
  let ds := s.map (fun r => r.date)
  let v := s.map (fun r => r.visitor_count)
  let sa := s.map (fun r => r.sales_amount)
  let dows := ds.map (fun d => d.dayOfWeek)
  let hol : List ℚ := ds.map (fun d => if d.isHoliday then 1 else 0)
  [("visitor_count", finCol v),
   ("sales_amount", finCol sa),
   ("year", intCol (ds.map (fun d => d.year))),
   ("month", intCol (ds.map (fun d => d.month))),
   ("day", intCol (ds.map (fun d => d.day))),
   ("day_of_week", intCol dows),
   ("day_of_year", intCol (ds.map (fun d => d.dayOfYear))),
   ("week_of_year", intCol (ds.map (fun d => d.weekOfYear))),
   ("quarter", intCol (ds.map (fun d => d.quarter))),
   ("is_weekend", boolCol (dows.map (fun w => decide (w = 5 ∨ w = 6)))),
   ("is_monday", boolCol (dows.map (fun w => decide (w = 0)))),
   ("is_friday", boolCol (dows.map (fun w => decide (w = 4)))),
   ("is_sunday", boolCol (dows.map (fun w => decide (w = 6)))),
   ("is_month_start", boolCol (ds.map (fun d => decide (d.day ≤ 5)))),
   ("is_month_end", boolCol (ds.map (fun d => decide (25 ≤ d.day)))),
   ("is_month_middle",
     boolCol (ds.map (fun d => decide (10 ≤ d.day ∧ d.day ≤ 20)))),
   ("is_holiday", finCol hol),
   ("is_day_before_holiday", finCol (shiftNext hol)),
   ("is_day_after_holiday", finCol (shiftPrev hol))]
  ++ targetBlock cfg.sqrtQ "visitor_count" v
  ++ targetBlock cfg.sqrtQ "sales_amount" sa
  ++ [("avg_spend_per_customer", avgSpendCol sa v),
      ("avg_spend_ma7", rollingMeanP 7 (avgSpendCol sa v))]
  ++ [("visitor_count_dow_avg", dowAvgCol dows v),
      ("sales_amount_dow_avg", dowAvgCol dows sa)]
  ++ [("dow_sin", finCol (dows.map cfg.dowSin)),
      ("dow_cos", finCol (dows.map cfg.dowCos)),
      ("month_sin", finCol (ds.map (fun d => cfg.monthSin d.month))),
      ("month_cos", finCol (ds.map (fun d => cfg.monthCos d.month)))]
  ++ (if includeWeather then weatherCols s.length else [])

/-- `create_features` with the default target columns: sort by date, build
every engineered column in code order, then apply the missing-value
policy to every column.  The result is the date column together with the
named numeric columns. -/
def create_features (cfg : FeatConfig) (includeWeather : Bool)
    (rows : List InRow) : List Date × List (String × List PVal) :=
  let s := List.insertionSort rowLE rows
  (s.map (fun r => r.date),
   (preCols cfg includeWeather s).map (fun c => (c.1, cleanupCol c.2)))

/-- The running state of a forward fill over a cell list: the last
non-NaN cell, starting from `prev`. -/
def lastNN (prev : PVal) (m : List PVal) : PVal :=
  m.foldl (fun acc x => if x = PVal.nan then acc else x) prev

/-- The cell of column `name` at row `i` of a feature table. -/
def colAt (t : List Date × List (String × List PVal)) (name : String)
    (i : ℕ) : PVal :=
  ((t.2.lookup name).getD []).getD i PVal.nan

end FeatureDefs


section PredictionFeatureDefs

/-! ## `features/engineering.py` — `create_prediction_features`

Calendar, day-type, month-position, holiday and cyclical features are
recomputed from the prediction date; every column of the last historical
row whose name contains one of the six substring patterns is carried
forward verbatim (NaN becoming 0).  The optional weather merge receives
the already-derived impact features (their derivation lives in
`services/weather.py`, outside these claims) and overwrites dict-style. -/

/-- The substring patterns selecting the carried-forward columns. -/
def predPatterns : List String :=
  ["_ma", "_lag", "_std", "_trend", "_dow_avg", "_pct_change"]

/-- Python `pattern in col`: `p` occurs as a contiguous substring of `s`. -/
def substrIn (p s : String) : Bool :=
  (List.range (s.data.length + 1)).any
    (fun i => p.data.isPrefixOf (s.data.drop i))

/-- `any(pattern in col for pattern in [...])`. -/
def hasPredPattern (name : String) : Bool :=
  predPatterns.any (fun p => substrIn p name)

/-- The keys written before the carry-forward loop, in code order. -/
def calendarNames : List String :=
  ["year", "month", "day", "day_of_week", "day_of_year", "week_of_year",
   "quarter", "is_weekend", "is_monday", "is_friday", "is_sunday",
   "is_month_start", "is_month_end", "is_month_middle", "is_holiday",
   "dow_sin", "dow_cos", "month_sin", "month_cos"]

/-- The date-derived entries of the prediction-feature dictionary. -/
def calendarBlock (d : Date) (cfg : FeatConfig) : List (String × PVal) :=
  [("year", PVal.fin (d.year : ℚ)),
   ("month", PVal.fin (d.month : ℚ)),
   ("day", PVal.fin (d.day : ℚ)),
   ("day_of_week", PVal.fin (d.dayOfWeek : ℚ)),
   ("day_of_year", PVal.fin (d.dayOfYear : ℚ)),
   ("week_of_year", PVal.fin (d.weekOfYear : ℚ)),
   ("quarter", PVal.fin (d.quarter : ℚ)),
   ("is_weekend", PVal.fin (if 5 ≤ d.dayOfWeek then 1 else 0)),
   ("is_monday", PVal.fin (if d.dayOfWeek = 0 then 1 else 0)),
   ("is_friday", PVal.fin (if d.dayOfWeek = 4 then 1 else 0)),
   ("is_sunday", PVal.fin (if d.dayOfWeek = 6 then 1 else 0)),
   ("is_month_start", PVal.fin (if d.day ≤ 5 then 1 else 0)),
   ("is_month_end", PVal.fin (if 25 ≤ d.day then 1 else 0)),
   ("is_month_middle", PVal.fin (if 10 ≤ d.day ∧ d.day ≤ 20 then 1 else 0)),
   ("is_holiday", PVal.fin (if d.isHoliday then 1 else 0)),
   ("dow_sin", PVal.fin (cfg.dowSin d.dayOfWeek)),
   ("dow_cos", PVal.fin (cfg.dowCos d.dayOfWeek)),
   ("month_sin", PVal.fin (cfg.monthSin d.month)),
   ("month_cos", PVal.fin (cfg.monthCos d.month))]

/-- Python `dict.update`: overwrite present keys in place, append new
ones. -/
def dictUpdate (base upd : List (String × PVal)) : List (String × PVal) :=
  upd.foldl (fun acc kv =>
    if acc.any (fun p => p.1 == kv.1) then
      acc.map (fun p => if p.1 == kv.1 then kv else p)
    else acc ++ [kv]) base

/-- `create_prediction_features`: one dictionary row — recomputed calendar
features, then every pattern-matching column of the last historical row
carried forward verbatim with NaN as 0, then the optional weather merge. -/
def create_prediction_features (lastRow : List (String × PVal)) (d : Date)
    (cfg : FeatConfig) (weather : Option (List (String × PVal))) :
    List (String × PVal) :=
  let base := calendarBlock d cfg ++
    (lastRow.filter (fun c => hasPredPattern c.1)).map
      (fun c => (c.1, if c.2 = PVal.nan then PVal.fin 0 else c.2))
  match weather with
  | some wf => dictUpdate base wf
  | none => base

end PredictionFeatureDefs

section Mape

/-! ## `LightGBMPredictor._calculate_mape` -/

/-- `_calculate_mape`: mask out the zero true values, then
`np.mean(np.abs((y_true - y_pred) / y_true)) * 100`; the NumPy mean of an
empty masked array is NaN, modelled as `none`. -/
def calculate_mape (yTrue yPred : List ℚ) : Option ℚ :=
  let pairs := (yTrue.zip yPred).filter (fun yp => yp.1 ≠ 0)
  if pairs.length = 0 then none
  else some ((pairs.map (fun yp => |(yp.1 - yp.2) / yp.1|)).sum / pairs.length * 100)

end Mape

/-! ## General lemmas -/

theorem lookup_cons_self {β : Type} (k : String) (b : β) (t : List (String × β)) :
    ((k, b) :: t).lookup k = some b := by
  simp [List.lookup_cons]

theorem lookup_cons_ne {β : Type} {k a : String} (hne : k ≠ a) (b : β)
    (t : List (String × β)) : ((a, b) :: t).lookup k = t.lookup k := by
  simp [List.lookup_cons, beq_false_of_ne hne]

theorem lookup_dictSet_self {α : Type} (l : List (String × CacheEntry α)) (k : String)
    (e : CacheEntry α) : (dictSet l k e).lookup k = some e := by
  unfold dictSet
  split
  · rename_i h
    induction l with
    | nil => simp at h
    | cons p t ih =>
        obtain ⟨a, b⟩ := p
        by_cases hp : a = k
        · have hb : ((a, b).1 == k) = true := beq_iff_eq.mpr hp
          simp only [List.map_cons, hb, if_true]
          exact lookup_cons_self k e _
        · have hb : ((a, b).1 == k) = false := beq_false_of_ne hp
          simp only [List.any_cons, hb, Bool.false_or] at h
          simp only [List.map_cons, hb, Bool.false_eq_true, if_false]
          rw [lookup_cons_ne (Ne.symm hp)]
          exact ih h
  · rename_i h
    induction l with
    | nil => exact lookup_cons_self k e []
    | cons p t ih =>
        obtain ⟨a, b⟩ := p
        simp only [List.any_cons, Bool.or_eq_true, not_or] at h
        have hp : a ≠ k := fun hh => h.1 (beq_iff_eq.mpr hh)
        rw [List.cons_append, lookup_cons_ne (Ne.symm hp)]
        exact ih h.2

theorem lookup_filter_ne {α : Type} {p : String × CacheEntry α → Bool}
    (l : List (String × CacheEntry α)) (k : String)
    (hk : ∀ q : String × CacheEntry α, q.1 = k → p q = true) :
    (l.filter p).lookup k = l.lookup k := by
  induction l with
  | nil => rfl
  | cons q t ih =>
      obtain ⟨a, b⟩ := q
      by_cases hq : a = k
      · subst hq
        rw [List.filter_cons_of_pos (hk (a, b) rfl), lookup_cons_self,
          lookup_cons_self]
      · cases hpq : p (a, b)
        · rw [List.filter_cons_of_neg (by simp [hpq]), ih,
            lookup_cons_ne (Ne.symm hq)]
        · rw [List.filter_cons_of_pos hpq, lookup_cons_ne (Ne.symm hq),
            lookup_cons_ne (Ne.symm hq), ih]

theorem lookup_filter_none {α : Type} {p : String × CacheEntry α → Bool}
    (l : List (String × CacheEntry α)) (k : String)
    (hk : ∀ q : String × CacheEntry α, q.1 = k → p q = false) :
    (l.filter p).lookup k = none := by
  induction l with
  | nil => rfl
  | cons q t ih =>
      obtain ⟨a, b⟩ := q
      by_cases hq : a = k
      · rw [List.filter_cons_of_neg (by simp [hk (a, b) hq]), ih]
      · cases hpq : p (a, b)
        · rw [List.filter_cons_of_neg (by simp [hpq]), ih]
        · rw [List.filter_cons_of_pos hpq, lookup_cons_ne (Ne.symm hq), ih]

/-- Monotonicity of Python `int` truncation. -/
theorem truncQ_mono {a b : ℚ} (h : a ≤ b) : truncQ a ≤ truncQ b := by
  unfold truncQ
  split
  · rename_i ha
    rw [if_pos (le_trans ha h)]
    exact Int.floor_mono h
  · rename_i ha
    split
    · rename_i hb
      calc ⌈a⌉ ≤ (0 : ℤ) :=
            Int.ceil_le.mpr (by exact_mod_cast le_of_not_le ha)
        _ ≤ ⌊b⌋ := Int.floor_nonneg.mpr hb
    · exact Int.ceil_mono h

theorem zScore_pos (conf : ℚ) : 0 < zScore conf := by
  unfold zScore; split <;> norm_num

/-! ## Claim theorems: cache (C7, C10) -/

/-- Reading a present key: the first component of `get` is the stored value
exactly when the current time is before the entry's expiry. -/
theorem mcGet_fst_of_lookup {α : Type} (l : List (String × CacheEntry α))
    (now : ℚ) (k : String) (e : CacheEntry α) (h : l.lookup k = some e) :
    (mcGet l now k).1 = if now < e.expiresAt then some e.value else none := by
  by_cases hc : now < e.expiresAt <;> simp [mcGet, h, hc]

/-- C7: `set(k, v, ttl=0)` followed by `get(k)` at any later instant returns
nothing; `set(k, v, ttl=6)` followed by `get(k)` strictly within 6 hours
returns `v` unchanged (`get` returns the stored value exactly when the
current time is before the entry's expiry); and `clear_user_cache` with a
prefix removes every key starting with that prefix and no other key. -/
theorem C7_cache_contract :
    (∀ (α : Type) (l : List (String × CacheEntry α)) (t t' : ℚ) (k : String)
        (v : α), t ≤ t' → (mcGet (mcSet l t k v 0) t' k).1 = none) ∧
    (∀ (α : Type) (l : List (String × CacheEntry α)) (t t' : ℚ) (k : String)
        (v : α), t ≤ t' → t' < t + 6 →
        (mcGet (mcSet l t k v 6) t' k).1 = some v) ∧
    (∀ (α : Type) (l : List (String × CacheEntry α)) (u k : String),
        (strStartsWith u k = true → (clear_user_cache l u).lookup k = none) ∧
        (strStartsWith u k = false →
          (clear_user_cache l u).lookup k = l.lookup k)) := by
  refine ⟨?_, ?_, ?_⟩
  · intro α l t t' k v h
    have hl : (mcSet l t k v 0).lookup k = some ⟨v, t + 0, t⟩ :=
      lookup_dictSet_self l k _
    rw [mcGet_fst_of_lookup _ t' k _ hl]
    have hc : ¬ t' < (⟨v, t + 0, t⟩ : CacheEntry α).expiresAt := by
      show ¬ t' < t + 0
      linarith
    rw [if_neg hc]
  · intro α l t t' k v h1 h2
    have hl : (mcSet l t k v 6).lookup k = some ⟨v, t + 6, t⟩ :=
      lookup_dictSet_self l k _
    rw [mcGet_fst_of_lookup _ t' k _ hl]
    have hc : t' < (⟨v, t + 6, t⟩ : CacheEntry α).expiresAt := by
      show t' < t + 6
      linarith
    rw [if_pos hc]
  · intro α l u k
    unfold clear_user_cache
    constructor
    · intro h
      exact lookup_filter_none l k (fun q hq => by simp [hq, h])
    · intro h
      exact lookup_filter_ne l k (fun q hq => by simp [hq, h])

/-- Witness for C7 at concrete inputs: an entry set with TTL 0 is already
expired at the moment it is set; an entry set with TTL 6 is returned 3
hours later; clearing prefix "user123" removes the key "user123_x". -/
theorem C7_cache_contract_witness :
    ((0 : ℚ) ≤ 0 ∧
      (mcGet (mcSet ([] : List (String × CacheEntry ℕ)) 0 "user123_x" 7 0)
        0 "user123_x").1 = none) ∧
    ((0 : ℚ) ≤ 3 ∧ (3 : ℚ) < 0 + 6 ∧
      (mcGet (mcSet ([] : List (String × CacheEntry ℕ)) 0 "user123_x" 7 6)
        3 "user123_x").1 = some 7) ∧
    (strStartsWith "user123" "user123_x" = true ∧
      (clear_user_cache [("user123_x", (⟨7, 6, 0⟩ : CacheEntry ℕ))]
        "user123").lookup "user123_x" = none) :=
  ⟨⟨le_refl 0, C7_cache_contract.1 ℕ [] 0 0 "user123_x" 7 (le_refl 0)⟩,
   ⟨by norm_num, by norm_num,
    C7_cache_contract.2.1 ℕ [] 0 3 "user123_x" 7 (by norm_num) (by norm_num)⟩,
   ⟨by decide,
    (C7_cache_contract.2.2 ℕ [("user123_x", ⟨7, 6, 0⟩)] "user123"
      "user123_x").1 (by decide)⟩⟩

/-- C10: `clear_user_cache u` removes exactly the entries whose key has `u`
as a string prefix and leaves every other entry unchanged (the lookup
yields the identical entry: value, creation and expiry timestamps); in
particular a key of a different user whose user id has `u` as a proper
prefix — such as `u = "user1"` against key "user12_2026-10-13" — is also
removed. -/
theorem C10_clear_user_cache_frame :
    (∀ (α : Type) (l : List (String × CacheEntry α)) (u k : String),
        (clear_user_cache l u).lookup k =
          if strStartsWith u k then none else l.lookup k) ∧
    (∀ e : CacheEntry ℕ,
        (clear_user_cache [("user12_2026-10-13", e)] "user1").lookup
          "user12_2026-10-13" = none) := by
  constructor
  · intro α l u k
    unfold clear_user_cache
    by_cases h : strStartsWith u k = true
    · rw [if_pos h]
      exact lookup_filter_none l k (fun q hq => by simp [hq, h])
    · have hf : strStartsWith u k = false := by
        cases hb : strStartsWith u k
        · rfl
        · exact absurd hb h
      rw [if_neg (by simp [hf])]
      exact lookup_filter_ne l k (fun q hq => by simp [hq, hf])
  · intro e
    unfold clear_user_cache
    exact lookup_filter_none _ _ (fun q hq => by rw [hq]; decide)

/-! ## Claim theorems: prediction intervals (C4, C5) -/

/-- C4: on a trained model (so that `model_metrics` holds the validation
RMSEs, which are square roots and hence nonnegative), every prediction for
both targets satisfies `confidence_lower ≤ value ≤ confidence_upper` and
`confidence_lower ≥ 0`. -/
theorem C4_confidence_bounds (st : PredictorState) (vp sp conf rv rs : ℚ)
    (ht : st.trained = true)
    (hv : st.visitorRmse = some rv) (hv0 : 0 ≤ rv)
    (hs : st.salesRmse = some rs) (hs0 : 0 ≤ rs)
    (vr : VisitorResult) (sr : SalesResult)
    (hok : predict st vp sp conf = Except.ok (vr, sr)) :
    vr.confidenceLower ≤ vr.value ∧ vr.value ≤ vr.confidenceUpper ∧
    0 ≤ vr.confidenceLower ∧
    sr.confidenceLower ≤ sr.value ∧ sr.value ≤ sr.confidenceUpper ∧
    0 ≤ sr.confidenceLower := by
  have hz : 0 < zScore conf := zScore_pos conf
  unfold predict at hok
  rw [ht] at hok
  simp only [Bool.true_eq_false, if_false, hv, hs, Option.getD_some,
    Except.ok.injEq, Prod.mk.injEq] at hok
  obtain ⟨hvr, hsr⟩ := hok
  subst hvr
  subst hsr
  have hvnn : 0 ≤ zScore conf * rv := mul_nonneg (le_of_lt hz) hv0
  have hsnn : 0 ≤ zScore conf * rs := mul_nonneg (le_of_lt hz) hs0
  refine ⟨?_, ?_, ?_, ?_, ?_, ?_⟩
  · exact max_le_max (le_refl 0) (truncQ_mono (by linarith))
  · exact max_le_max (le_refl 0) (truncQ_mono (by linarith))
  · exact le_max_left 0 _
  · exact max_le_max (le_refl 0) (by linarith)
  · exact max_le_max (le_refl 0) (by linarith)
  · exact le_max_left 0 _

/-- Witness for C4: a concrete trained state with RMSE 1 (visitor) and 2
(sales), point predictions 10 and 20, confidence level 0.9. -/
theorem C4_confidence_bounds_witness :
    ((⟨true, some 1, some 2⟩ : PredictorState).trained = true ∧
     (⟨true, some 1, some 2⟩ : PredictorState).visitorRmse = some 1 ∧
     (0 : ℚ) ≤ 1 ∧
     (⟨true, some 1, some 2⟩ : PredictorState).salesRmse = some 2 ∧
     (0 : ℚ) ≤ 2 ∧
     predict ⟨true, some 1, some 2⟩ 10 20 (9/10) =
       Except.ok (⟨10, 8, 11, 1⟩, ⟨20, 1671/100, 2329/100, 2⟩)) ∧
    (((⟨10, 8, 11, 1⟩ : VisitorResult).confidenceLower ≤
        (⟨10, 8, 11, 1⟩ : VisitorResult).value) ∧
     ((⟨10, 8, 11, 1⟩ : VisitorResult).value ≤
        (⟨10, 8, 11, 1⟩ : VisitorResult).confidenceUpper) ∧
     (0 ≤ (⟨10, 8, 11, 1⟩ : VisitorResult).confidenceLower) ∧
     ((⟨20, 1671/100, 2329/100, 2⟩ : SalesResult).confidenceLower ≤
        (⟨20, 1671/100, 2329/100, 2⟩ : SalesResult).value) ∧
     ((⟨20, 1671/100, 2329/100, 2⟩ : SalesResult).value ≤
        (⟨20, 1671/100, 2329/100, 2⟩ : SalesResult).confidenceUpper) ∧
     (0 ≤ (⟨20, 1671/100, 2329/100, 2⟩ : SalesResult).confidenceLower)) :=
  ⟨⟨rfl, rfl, by norm_num, rfl, by norm_num,
    by norm_num [predict, zScore, truncQ]⟩,
   C4_confidence_bounds ⟨true, some 1, some 2⟩ 10 20 (9/10) 1 2 rfl rfl
     (by norm_num) rfl (by norm_num) _ _
     (by norm_num [predict, zScore, truncQ])⟩

/-- C5 counterexample: with a trained state whose visitor RMSE is 1, point
prediction 5/2 and confidence level 0.9, the code's visitor lower bound is
the integer 0, whereas the claimed formula `max(0, value − z·std)` gives
171/200; the visitor-side bounds are additionally truncated to integers,
so the claim as stated fails. -/
theorem C5_counterexample :
    predict ⟨true, some 1, some 1⟩ (5/2) (5/2) (9/10) =
      Except.ok (⟨2, 0, 4, 1⟩, ⟨5/2, 171/200, 829/200, 1⟩) ∧
    (specInterval (5/2) 1 (zScore (9/10))).2.1 = 171/200 ∧
    ((0 : ℤ) : ℚ) ≠ 171/200 := by
  refine ⟨by norm_num [predict, zScore, truncQ], ?_, by norm_num⟩
  norm_num [specInterval, zScore]

/-- C5 (amended): for every trained model, the sales-side value and bounds
are exactly the spec's `max(0, value ± z·std)` with `std` the recorded
validation RMSE (falling back to 15% of the point estimate when absent)
and `z = 1.645` iff the confidence level is exactly 0.9 (else 1.96); the
visitor-side value and bounds follow the same formula but are truncated to
integers (toward zero) before the clamp at 0. -/
theorem C5_interval_formula (st : PredictorState) (vp sp conf : ℚ)
    (ht : st.trained = true) :
    predict st vp sp conf = Except.ok
      (⟨max 0 (truncQ vp),
        max 0 (truncQ (vp - zScore conf * specStd st.visitorRmse vp)),
        max 0 (truncQ (vp + zScore conf * specStd st.visitorRmse vp)),
        specStd st.visitorRmse vp⟩,
       ⟨(specInterval sp (specStd st.salesRmse sp) (zScore conf)).1,
        (specInterval sp (specStd st.salesRmse sp) (zScore conf)).2.1,
        (specInterval sp (specStd st.salesRmse sp) (zScore conf)).2.2,
        specStd st.salesRmse sp⟩) ∧
    (conf = 9/10 → zScore conf = 1645/1000) ∧
    (conf ≠ 9/10 → zScore conf = 196/100) ∧
    (∀ r : ℚ, specStd (some r) sp = r) ∧ specStd none sp = 15/100 * sp := by
  refine ⟨?_, ?_, ?_, fun r => rfl, rfl⟩
  · unfold predict specStd specInterval
    rw [ht]
    cases st.visitorRmse <;> cases st.salesRmse <;>
      simp [Option.getD, mul_comm]
  · intro h
    unfold zScore
    rw [if_pos h]
  · intro h
    unfold zScore
    rw [if_neg h]

/-- Witness for C5 (amended): evaluated at a trained state with both RMSE
entries absent, predictions 3 and 4, confidence level 1/2. -/
theorem C5_interval_formula_witness :
    ((⟨true, none, none⟩ : PredictorState).trained = true) ∧
    (predict ⟨true, none, none⟩ 3 4 (1/2) = Except.ok
      (⟨max 0 (truncQ 3),
        max 0 (truncQ (3 - zScore (1/2) * specStd none 3)),
        max 0 (truncQ (3 + zScore (1/2) * specStd none 3)),
        specStd none 3⟩,
       ⟨(specInterval 4 (specStd none 4) (zScore (1/2))).1,
        (specInterval 4 (specStd none 4) (zScore (1/2))).2.1,
        (specInterval 4 (specStd none 4) (zScore (1/2))).2.2,
        specStd none 4⟩) ∧
     ((1 : ℚ)/2 = 9/10 → zScore (1/2) = 1645/1000) ∧
     ((1 : ℚ)/2 ≠ 9/10 → zScore (1/2) = 196/100) ∧
     (∀ r : ℚ, specStd (some r) 4 = r) ∧ specStd none 4 = 15/100 * 4) :=
  ⟨rfl, C5_interval_formula ⟨true, none, none⟩ 3 4 (1/2) rfl⟩


/-! ## Claim theorem: MAPE (C9) -/

/-- The mask `y_true != 0` on zipped validation vectors, re-expressed
through row indices. -/
theorem zip_filter_nonzero (ys ps : List ℚ) (h : ys.length = ps.length) :
    (ys.zip ps).filter (fun yp => yp.1 ≠ 0) =
      ((List.range ys.length).filter (fun i => ys.getD i 0 ≠ 0)).map
        (fun i => (ys.getD i 0, ps.getD i 0)) := by
  induction ys generalizing ps with
  | nil => simp
  | cons y t ih =>
      cases ps with
      | nil => simp at h
      | cons p q =>
          have h' : t.length = q.length := by simpa using h
          rw [List.zip_cons_cons, List.length_cons, List.range_succ_eq_map]
          by_cases hy : y = 0
          · rw [List.filter_cons_of_neg (by simp [hy]), ih q h',
              List.filter_cons_of_neg (by simp [hy]), List.filter_map,
              List.map_map]
            simp only [Function.comp_def, Nat.succ_eq_add_one,
              List.getD_cons_succ]
          · rw [List.filter_cons_of_pos (by simp [hy]), ih q h',
              List.filter_cons_of_pos (by simp [hy]), List.map_cons,
              List.filter_map, List.map_map]
            simp only [Function.comp_def, Nat.succ_eq_add_one,
              List.getD_cons_succ, List.getD_cons_zero]

/-- C9: for validation vectors of equal length with at least one non-zero
true value, the recorded MAPE equals 100 times the mean of
`|y_i − p_i| / |y_i|` taken only over the indices `i` with `y_i ≠ 0`; rows
with `y_i = 0` contribute to neither the numerator nor the denominator. -/
theorem C9_mape (ys ps : List ℚ) (hlen : ys.length = ps.length)
    (hnz : ((List.range ys.length).filter
      (fun i => ys.getD i 0 ≠ 0)).length ≠ 0) :
    calculate_mape ys ps = some (100 *
      (((List.range ys.length).filter (fun i => ys.getD i 0 ≠ 0)).map
        (fun i => |ys.getD i 0 - ps.getD i 0| / |ys.getD i 0|)).sum /
      ((List.range ys.length).filter (fun i => ys.getD i 0 ≠ 0)).length) := by
  unfold calculate_mape
  simp only [zip_filter_nonzero ys ps hlen, List.length_map, List.map_map]
  rw [if_neg hnz]
  congr 1
  rw [div_mul_eq_mul_div, mul_comm]
  congr 2
  refine congrArg List.sum (List.map_congr_left ?_)
  intro i hi
  simp only [Function.comp_def]
  rw [abs_div]

/-- Witness for C9: `y = [2, 0]`, `p = [1, 5]`; only index 0 counts, and
the MAPE is 100·(1/2)/1 = 50. -/
theorem C9_mape_witness :
    (([2, 0] : List ℚ).length = ([1, 5] : List ℚ).length ∧
     ((List.range ([2, 0] : List ℚ).length).filter
       (fun i => ([2, 0] : List ℚ).getD i 0 ≠ 0)).length ≠ 0) ∧
    calculate_mape ([2, 0] : List ℚ) ([1, 5] : List ℚ) = some (100 *
      (((List.range ([2, 0] : List ℚ).length).filter
          (fun i => ([2, 0] : List ℚ).getD i 0 ≠ 0)).map
        (fun i => |([2, 0] : List ℚ).getD i 0 - ([1, 5] : List ℚ).getD i 0| /
          |([2, 0] : List ℚ).getD i 0|)).sum /
      ((List.range ([2, 0] : List ℚ).length).filter
        (fun i => ([2, 0] : List ℚ).getD i 0 ≠ 0)).length) :=
  ⟨⟨rfl, by decide⟩, C9_mape [2, 0] [1, 5] rfl (by decide)⟩

/-! ## Rolling-trend lemmas and claim theorems (C8) -/

theorem sum_shift (a : ℚ × ℚ) (l : List (ℚ × ℚ)) :
    (l.map (fun b => (b.1 - a.1) * (b.2 - a.2))).sum =
      sumXY l - a.1 * sumY l - a.2 * sumX l + l.length * (a.1 * a.2) := by
  induction l with
  | nil => simp [sumXY, sumY, sumX]
  | cons b m ih =>
      simp only [List.map_cons, List.sum_cons, ih, sumXY, sumY, sumX,
        List.length_cons]
      push_cast
      ring

theorem covNum_cons (a : ℚ × ℚ) (l : List (ℚ × ℚ)) :
    covNum (a :: l) =
      covNum l + (l.map (fun b => (b.1 - a.1) * (b.2 - a.2))).sum := by
  rw [sum_shift]
  simp only [covNum, sumXY, sumY, sumX, List.map_cons, List.sum_cons,
    List.length_cons]
  push_cast
  ring

theorem covNum_nonneg (l : List (ℚ × ℚ))
    (h : l.Pairwise (fun a b => a.1 < b.1 ∧ a.2 < b.2)) : 0 ≤ covNum l := by
  induction l with
  | nil => simp [covNum, sumXY, sumY, sumX]
  | cons a m ih =>
      rw [covNum_cons]
      have h1 : 0 ≤ covNum m := ih (List.Pairwise.of_cons h)
      have h2 : 0 ≤ (m.map (fun b => (b.1 - a.1) * (b.2 - a.2))).sum := by
        apply List.sum_nonneg
        intro x hx
        obtain ⟨b, hb, rfl⟩ := List.mem_map.mp hx
        have := (List.pairwise_cons.mp h).1 b hb
        nlinarith [this.1, this.2]
      linarith

theorem covNum_pos (l : List (ℚ × ℚ)) (h2 : 2 ≤ l.length)
    (h : l.Pairwise (fun a b => a.1 < b.1 ∧ a.2 < b.2)) : 0 < covNum l := by
  match l, h2 with
  | a :: b :: m, _ =>
      rw [covNum_cons]
      have hrest : 0 ≤ covNum (b :: m) := covNum_nonneg _ (List.Pairwise.of_cons h)
      have hab := (List.pairwise_cons.mp h).1 b (List.mem_cons_self b m)
      have hsum : 0 < ((b :: m).map (fun c => (c.1 - a.1) * (c.2 - a.2))).sum := by
        rw [List.map_cons, List.sum_cons]
        have hpos : 0 < (b.1 - a.1) * (b.2 - a.2) := by nlinarith [hab.1, hab.2]
        have hnn : 0 ≤ (m.map (fun c => (c.1 - a.1) * (c.2 - a.2))).sum := by
          apply List.sum_nonneg
          intro x hx
          obtain ⟨c, hc, rfl⟩ := List.mem_map.mp hx
          have := (List.pairwise_cons.mp h).1 c (List.mem_cons_of_mem b hc)
          nlinarith [this.1, this.2]
        linarith
      linarith

theorem covNum_negY (l : List (ℚ × ℚ)) :
    covNum (l.map (fun p => (p.1, -p.2))) = -covNum l := by
  simp only [covNum, sumXY, sumY, sumX, List.map_map, List.length_map,
    Function.comp_def]
  have h1 : (l.map (fun p => p.1 * -p.2)).sum = -(l.map (fun p => p.1 * p.2)).sum := by
    induction l with
    | nil => simp
    | cons a m ih =>
        simp only [List.map_cons, List.sum_cons]
        rw [ih]
        ring
  have h2 : (l.map (fun p => -p.2)).sum = -(l.map Prod.snd).sum := by
    clear h1
    induction l with
    | nil => simp
    | cons a m ih =>
        simp only [List.map_cons, List.sum_cons]
        rw [ih]
        ring
  rw [h1, h2]
  ring

theorem covNum_neg (l : List (ℚ × ℚ)) (h2 : 2 ≤ l.length)
    (h : l.Pairwise (fun a b => a.1 < b.1 ∧ b.2 < a.2)) : covNum l < 0 := by
  have hm : (l.map (fun p => (p.1, -p.2))).Pairwise
      (fun a b => a.1 < b.1 ∧ a.2 < b.2) := by
    refine List.Pairwise.map _ ?_ h
    intro a b hab
    exact ⟨hab.1, by simpa using hab.2⟩
  have := covNum_pos (l.map (fun p => (p.1, -p.2))) (by simpa using h2) hm
  rw [covNum_negY] at this
  linarith

theorem covNum_constY (l : List (ℚ × ℚ)) (c : ℚ)
    (h : ∀ p ∈ l, p.2 = c) : covNum l = 0 := by
  have h1 : sumXY l = c * sumX l := by
    unfold sumXY sumX
    induction l with
    | nil => simp
    | cons a m ih =>
        simp only [List.map_cons, List.sum_cons, h a (List.mem_cons_self a m)]
        rw [ih (fun p hp => h p (List.mem_cons_of_mem a hp))]
        ring
  have h2 : sumY l = l.length * c := by
    clear h1
    unfold sumY
    induction l with
    | nil => simp
    | cons a m ih =>
        simp only [List.map_cons, List.sum_cons, h a (List.mem_cons_self a m),
          List.length_cons]
        rw [ih (fun p hp => h p (List.mem_cons_of_mem a hp))]
        push_cast
        ring
  unfold covNum
  rw [h1, h2]
  ring

theorem varNum_eq_covNum (l : List (ℚ × ℚ)) :
    varNum l = covNum (l.map (fun p => (p.1, p.1))) := by
  simp only [varNum, covNum, sumXY, sumX, sumY, sumXX, List.map_map,
    List.length_map, Function.comp_def]
  have : (l.map (fun p => p.1 ^ 2)).sum = (l.map (fun p => p.1 * p.1)).sum := by
    congr 1
    exact List.map_congr_left (fun a _ => sq a.1)
  rw [this]
  ring

theorem varNum_pos (l : List (ℚ × ℚ)) (h2 : 2 ≤ l.length)
    (h : l.Pairwise (fun a b => a.1 < b.1)) : 0 < varNum l := by
  rw [varNum_eq_covNum]
  refine covNum_pos _ (by simpa using h2) ?_
  refine List.Pairwise.map _ ?_ h
  intro a b hab
  exact ⟨hab, hab⟩

theorem olsPts_pairwise_lt (w : List ℚ) (h : List.Chain' (· < ·) w) :
    (olsPts w).Pairwise (fun a b => a.1 < b.1 ∧ a.2 < b.2) := by
  have hp : w.Pairwise (· < ·) := List.chain'_iff_pairwise.mp h
  rw [List.pairwise_iff_getElem] at hp ⊢
  intro i j hi hj hij
  have hiw : i < w.length := by simpa [olsPts] using hi
  have hjw : j < w.length := by simpa [olsPts] using hj
  simp only [olsPts, List.getElem_map, List.getElem_enum]
  exact ⟨by exact_mod_cast hij, hp i j hiw hjw hij⟩

theorem olsPts_length (w : List ℚ) : (olsPts w).length = w.length := by
  simp [olsPts]

theorem olsSlope_pos (w : List ℚ) (h2 : 2 ≤ w.length)
    (h : List.Chain' (· < ·) w) : 0 < olsSlope w := by
  have hpw := olsPts_pairwise_lt w h
  have hnum := covNum_pos _ ((olsPts_length w).symm ▸ h2) hpw
  have hden := varNum_pos _ ((olsPts_length w).symm ▸ h2)
    (hpw.imp (fun h => h.1))
  exact div_pos hnum hden

theorem olsPts_pairwise_gt (w : List ℚ) (h : List.Chain' (· > ·) w) :
    (olsPts w).Pairwise (fun a b => a.1 < b.1 ∧ b.2 < a.2) := by
  have hp : w.Pairwise (· > ·) := List.chain'_iff_pairwise.mp h
  rw [List.pairwise_iff_getElem] at hp ⊢
  intro i j hi hj hij
  have hiw : i < w.length := by simpa [olsPts] using hi
  have hjw : j < w.length := by simpa [olsPts] using hj
  simp only [olsPts, List.getElem_map, List.getElem_enum]
  exact ⟨by exact_mod_cast hij, hp i j hiw hjw hij⟩

theorem olsSlope_neg (w : List ℚ) (h2 : 2 ≤ w.length)
    (h : List.Chain' (· > ·) w) : olsSlope w < 0 := by
  have hpw := olsPts_pairwise_gt w h
  have hnum := covNum_neg _ ((olsPts_length w).symm ▸ h2) hpw
  have hden := varNum_pos _ ((olsPts_length w).symm ▸ h2)
    (hpw.imp (fun h => h.1))
  exact div_neg_of_neg_of_pos hnum hden

theorem olsSlope_const (w : List ℚ) (c : ℚ) (h : ∀ x ∈ w, x = c) :
    olsSlope w = 0 := by
  have : covNum (olsPts w) = 0 := by
    apply covNum_constY _ c
    intro p hp
    obtain ⟨q, hq, rfl⟩ := List.mem_map.mp hp
    obtain ⟨i, v⟩ := q
    have hiv := List.mem_enum hq
    have hvw : v = w.get ⟨i, hiv.1⟩ := hiv.2
    simpa [hvw, List.get_eq_getElem] using h _ (w.getElem_mem hiv.1)
  rw [olsSlope, this, zero_div]

/-- C8 counterexample: a window with fewer than 2 observations does not get
slope 0 — `min_periods=2` makes the rolling output a missing value (NaN)
there, and the inner `_trend` guard returning 0 is unreachable.  On the
one-row series `[5]` with a 7-window the trend column is `[NaN]`, not
`[0]`. -/
theorem C8_counterexample :
    calculate_trend [5] 7 = [PVal.nan] ∧
    calculate_trend [5] 7 ≠ [PVal.fin 0] := by
  constructor
  · rfl
  · intro h
    exact absurd (List.head_eq_of_cons_eq h) (by decide)

/-- C8 (amended): over any window of at least 2 observations the rolling
trend is the OLS slope of value against the 0-based window index —
positive for a strictly increasing window, negative for a strictly
decreasing one, 0 for a constant one, with a zero denominator absorbed
into 0 and never an exception; but a window with fewer than 2
observations yields a missing value (NaN), not 0. -/
theorem C8_trend_behaviour :
    (∀ w : List ℚ, 2 ≤ w.length → List.Chain' (· < ·) w → 0 < olsSlope w) ∧
    (∀ w : List ℚ, 2 ≤ w.length → List.Chain' (· > ·) w → olsSlope w < 0) ∧
    (∀ (w : List ℚ) (c : ℚ), (∀ x ∈ w, x = c) → olsSlope w = 0) ∧
    (∀ (xs : List ℚ) (window i : ℕ), i < xs.length →
        (calculate_trend xs window).getD i PVal.nan =
          if (windowAt xs i window).length < 2 then PVal.nan
          else PVal.fin (olsSlope (windowAt xs i window))) := by
  refine ⟨olsSlope_pos, olsSlope_neg, olsSlope_const, ?_⟩
  intro xs window i hi
  unfold calculate_trend
  rw [List.getD_eq_getElem _ _ (by simpa using hi)]
  simp [hi]

/-- Witness for C8: the increasing window 1..7 has positive slope, its
reverse a negative one, a constant window slope 0, and the one-row series
`[5]` gets NaN at row 0. -/
theorem C8_trend_behaviour_witness :
    (2 ≤ ([1, 2, 3, 4, 5, 6, 7] : List ℚ).length ∧
      List.Chain' (· < ·) ([1, 2, 3, 4, 5, 6, 7] : List ℚ) ∧
      0 < olsSlope [1, 2, 3, 4, 5, 6, 7]) ∧
    (2 ≤ ([7, 6, 5, 4, 3, 2, 1] : List ℚ).length ∧
      List.Chain' (· > ·) ([7, 6, 5, 4, 3, 2, 1] : List ℚ) ∧
      olsSlope [7, 6, 5, 4, 3, 2, 1] < 0) ∧
    ((∀ x ∈ ([3, 3, 3] : List ℚ), x = 3) ∧ olsSlope [3, 3, 3] = 0) ∧
    ((0 : ℕ) < ([5] : List ℚ).length ∧
      (calculate_trend [5] 7).getD 0 PVal.nan =
        if (windowAt [5] 0 7).length < 2 then PVal.nan
        else PVal.fin (olsSlope (windowAt [5] 0 7))) :=
  ⟨⟨by norm_num, by norm_num, C8_trend_behaviour.1 _ (by norm_num) (by norm_num)⟩,
   ⟨by norm_num, by norm_num, C8_trend_behaviour.2.1 _ (by norm_num) (by norm_num)⟩,
   ⟨by norm_num, C8_trend_behaviour.2.2.1 [3, 3, 3] 3 (by norm_num)⟩,
   ⟨by norm_num, C8_trend_behaviour.2.2.2 [5] 7 0 (by norm_num)⟩⟩

/-! ## Claim theorems: training split (C3) -/

/-- C3: `train` fails with the InsufficientData error exactly when fewer
than 30 rows survive the dropna over feature and target columns; on
success the clean rows are split without shuffling into a leading training
slice and a trailing (most recent) validation slice of `ceil(n/5)` rows,
every training row precedes every validation row chronologically, and
`training_samples + validation_samples` equals the number of clean rows. -/
theorem C3_train_contract :
    (∀ (df : List (String × List PVal)) (tv ts : String),
        train df tv ts = Except.error "Insufficient clean data for training" ↔
          (cleanIdx df tv ts).length < 30) ∧
    (∀ (df : List (String × List PVal)) (tv ts : String) (r : TrainResult),
        train df tv ts = Except.ok r →
          r.trainIdx = (cleanIdx df tv ts).take
            ((cleanIdx df tv ts).length - nTestOf (cleanIdx df tv ts).length) ∧
          r.valIdx = (cleanIdx df tv ts).drop
            ((cleanIdx df tv ts).length - nTestOf (cleanIdx df tv ts).length) ∧
          r.trainIdx ++ r.valIdx = cleanIdx df tv ts ∧
          r.validationSamples = nTestOf (cleanIdx df tv ts).length ∧
          r.trainingSamples + r.validationSamples =
            (cleanIdx df tv ts).length ∧
          (∀ a ∈ r.trainIdx, ∀ b ∈ r.valIdx, a < b)) := by
  constructor
  · intro df tv ts
    unfold train
    by_cases h : (cleanIdx df tv ts).length < 30
    · simp [h]
    · simp [h]
  · intro df tv ts r h
    unfold train at h
    by_cases hlt : (cleanIdx df tv ts).length < 30
    · simp [hlt] at h
    · simp only [hlt, if_false, Except.ok.injEq] at h
      subst h
      have hle : nTestOf (cleanIdx df tv ts).length ≤
          (cleanIdx df tv ts).length := by
        unfold nTestOf
        omega
      set n := (cleanIdx df tv ts).length with hn
      have htd : (cleanIdx df tv ts).take (n - nTestOf n) ++
          (cleanIdx df tv ts).drop (n - nTestOf n) = cleanIdx df tv ts :=
        List.take_append_drop _ _
      have hlt' : ((cleanIdx df tv ts).take (n - nTestOf n)).length =
          n - nTestOf n := by
        rw [List.length_take]
        omega
      have hld : ((cleanIdx df tv ts).drop (n - nTestOf n)).length =
          nTestOf n := by
        rw [List.length_drop]
        omega
      refine ⟨rfl, rfl, htd, hld, ?_, ?_⟩
      · show ((cleanIdx df tv ts).take (n - nTestOf n)).length +
            ((cleanIdx df tv ts).drop (n - nTestOf n)).length = n
        rw [hlt', hld]
        omega
      · have hsorted : (cleanIdx df tv ts).Pairwise (· < ·) :=
          List.Pairwise.filter _ (List.pairwise_lt_range _)
        rw [← htd] at hsorted
        exact (List.pairwise_append.mp hsorted).2.2

/-- Witness for C3: on a 30-row table with no missing cells, `train`
succeeds with 24 training and 6 validation rows (24 + 6 = 30), the
validation slice being the trailing one. -/
theorem C3_train_contract_witness :
    (train exTrainDF "visitor_count" "sales_amount" = Except.ok
      ⟨(cleanIdx exTrainDF "visitor_count" "sales_amount").take 24,
       (cleanIdx exTrainDF "visitor_count" "sales_amount").drop 24, 24, 6⟩) ∧
    ((cleanIdx exTrainDF "visitor_count" "sales_amount").take 24 =
      (cleanIdx exTrainDF "visitor_count" "sales_amount").take
        ((cleanIdx exTrainDF "visitor_count" "sales_amount").length -
          nTestOf (cleanIdx exTrainDF "visitor_count" "sales_amount").length) ∧
     (cleanIdx exTrainDF "visitor_count" "sales_amount").drop 24 =
      (cleanIdx exTrainDF "visitor_count" "sales_amount").drop
        ((cleanIdx exTrainDF "visitor_count" "sales_amount").length -
          nTestOf (cleanIdx exTrainDF "visitor_count" "sales_amount").length) ∧
     (cleanIdx exTrainDF "visitor_count" "sales_amount").take 24 ++
      (cleanIdx exTrainDF "visitor_count" "sales_amount").drop 24 =
      cleanIdx exTrainDF "visitor_count" "sales_amount" ∧
     (6 : ℕ) = nTestOf (cleanIdx exTrainDF "visitor_count" "sales_amount").length ∧
     24 + 6 = (cleanIdx exTrainDF "visitor_count" "sales_amount").length ∧
     (∀ a ∈ (cleanIdx exTrainDF "visitor_count" "sales_amount").take 24,
      ∀ b ∈ (cleanIdx exTrainDF "visitor_count" "sales_amount").drop 24,
        a < b)) :=
  ⟨rfl, C3_train_contract.2 exTrainDF "visitor_count" "sales_amount"
    ⟨(cleanIdx exTrainDF "visitor_count" "sales_amount").take 24,
     (cleanIdx exTrainDF "visitor_count" "sales_amount").drop 24, 24, 6⟩ rfl⟩

/-! ## Feature-table lemmas and claim theorem (C2) -/

@[simp]
theorem calculate_trend_length (xs : List ℚ) (w : ℕ) :
    (calculate_trend xs w).length = xs.length := by
  simp [calculate_trend]

@[simp]
theorem rollingMeanQ_length (w : ℕ) (xs : List ℚ) :
    (rollingMeanQ w xs).length = xs.length := by
  simp [rollingMeanQ]

@[simp]
theorem rollingStdQ_length (sq : ℚ → ℚ) (w : ℕ) (xs : List ℚ) :
    (rollingStdQ sq w xs).length = xs.length := by
  simp [rollingStdQ]

@[simp]
theorem rollingMaxQ_length (w : ℕ) (xs : List ℚ) :
    (rollingMaxQ w xs).length = xs.length := by
  simp [rollingMaxQ]

@[simp]
theorem rollingMinQ_length (w : ℕ) (xs : List ℚ) :
    (rollingMinQ w xs).length = xs.length := by
  simp [rollingMinQ]

@[simp]
theorem lagCol_length (n : ℕ) (xs : List ℚ) :
    (lagCol n xs).length = xs.length := by
  simp [lagCol]

@[simp]
theorem diffCol_length (n : ℕ) (xs : List ℚ) :
    (diffCol n xs).length = xs.length := by
  simp [diffCol]

@[simp]
theorem pctChangeCol_length (n : ℕ) (xs : List ℚ) :
    (pctChangeCol n xs).length = xs.length := by
  simp [pctChangeCol]

@[simp]
theorem wowGrowthCol_length (xs : List ℚ) :
    (wowGrowthCol xs).length = xs.length := by
  simp [wowGrowthCol]

@[simp]
theorem avgSpendCol_length (sales visitors : List ℚ) :
    (avgSpendCol sales visitors).length = visitors.length := by
  simp [avgSpendCol]

@[simp]
theorem rollingMeanP_length (w : ℕ) (xs : List PVal) :
    (rollingMeanP w xs).length = xs.length := by
  simp [rollingMeanP]

@[simp]
theorem dowAvgCol_length (dows : List ℤ) (xs : List ℚ) :
    (dowAvgCol dows xs).length = xs.length := by
  simp [dowAvgCol]

@[simp]
theorem finCol_length (xs : List ℚ) : (finCol xs).length = xs.length := by
  simp [finCol]

@[simp]
theorem boolCol_length (bs : List Bool) : (boolCol bs).length = bs.length := by
  simp [boolCol]

@[simp]
theorem intCol_length (zs : List ℤ) : (intCol zs).length = zs.length := by
  simp [intCol]

@[simp]
theorem shiftNext_length (xs : List ℚ) : (shiftNext xs).length = xs.length := by
  simp [shiftNext]

@[simp]
theorem shiftPrev_length (xs : List ℚ) : (shiftPrev xs).length = xs.length := by
  simp [shiftPrev]

@[simp]
theorem ffillAux_length (prev : PVal) (l : List PVal) :
    (ffillAux prev l).length = l.length := by
  induction l generalizing prev with
  | nil => rfl
  | cons x xs ih => simp [ffillAux, ih]

@[simp]
theorem cleanupCol_length (l : List PVal) :
    (cleanupCol l).length = l.length := by
  simp [cleanupCol, replaceInfCol, fillZeroCol, bfillCol, ffillCol]

theorem cleanupCol_mem_fin (l : List PVal) (v : PVal) (hv : v ∈ cleanupCol l) :
    ∃ q, v = PVal.fin q := by
  unfold cleanupCol replaceInfCol at hv
  obtain ⟨w, hw, rfl⟩ := List.mem_map.mp hv
  unfold fillZeroCol at hw
  obtain ⟨u, hu, rfl⟩ := List.mem_map.mp hw
  cases u with
  | fin q =>
      refine ⟨q, ?_⟩
      simp
  | nan => exact ⟨0, by simp⟩
  | inf => exact ⟨0, by simp⟩
  | ninf => exact ⟨0, by simp⟩

theorem preCols_length (cfg : FeatConfig) (iw : Bool) (s : List InRow) :
    ∀ c ∈ preCols cfg iw s, c.2.length = s.length := by
  cases iw <;>
    simp [preCols, targetBlock, weatherCols, List.forall_mem_cons,
      List.forall_mem_append]

/-- C2: on a valid DailySeries (one row per date), the feature table has
exactly one row per input row, its date column is in strictly ascending
order, and after the missing-value policy no cell of any column is NaN or
±infinity — every cell is a finite rational. -/
theorem C2_table_shape (cfg : FeatConfig) (iw : Bool) (rows : List InRow)
    (hnd : (rows.map (fun r => r.date.epochDay)).Nodup) :
    (create_features cfg iw rows).1.length = rows.length ∧
    (∀ c ∈ (create_features cfg iw rows).2, c.2.length = rows.length) ∧
    List.Chain' (fun a b : Date => a.epochDay < b.epochDay)
      (create_features cfg iw rows).1 ∧
    (∀ c ∈ (create_features cfg iw rows).2, ∀ v ∈ c.2, ∃ q, v = PVal.fin q) := by
  have hslen : (List.insertionSort rowLE rows).length = rows.length :=
    List.length_insertionSort rowLE rows
  refine ⟨?_, ?_, ?_, ?_⟩
  · simp [create_features, hslen]
  · intro c hc
    simp only [create_features] at hc
    obtain ⟨p, hp, rfl⟩ := List.mem_map.mp hc
    simp only [cleanupCol_length]
    rw [preCols_length cfg iw _ p hp, hslen]
  · have hsorted : List.Sorted rowLE (List.insertionSort rowLE rows) :=
      List.sorted_insertionSort rowLE rows
    have hperm : List.Perm (List.insertionSort rowLE rows) rows :=
      List.perm_insertionSort rowLE rows
    have hnd' :
        ((List.insertionSort rowLE rows).map
          (fun r => r.date.epochDay)).Nodup :=
      (hperm.map _).nodup_iff.mpr hnd
    have hne :
        (List.insertionSort rowLE rows).Pairwise
          (fun a b => a.date.epochDay ≠ b.date.epochDay) :=
      List.pairwise_map.mp hnd'
    have hlt :
        (List.insertionSort rowLE rows).Pairwise
          (fun a b => a.date.epochDay < b.date.epochDay) :=
      (hsorted.and hne).imp (fun h => lt_of_le_of_ne h.1 h.2)
    have hmap :
        ((List.insertionSort rowLE rows).map (fun r => r.date)).Pairwise
          (fun a b : Date => a.epochDay < b.epochDay) :=
      List.pairwise_map.mpr hlt
    simpa [create_features] using hmap.chain'
  · intro c hc v hv
    simp only [create_features] at hc
    obtain ⟨p, hp, rfl⟩ := List.mem_map.mp hc
    exact cleanupCol_mem_fin p.2 v hv

/-- Witness for C2 on a concrete two-row series (dates 0 and 7). -/
theorem C2_table_shape_witness :
    ((([⟨⟨0, 1970, 1, 1, 3, 1, 1, 1, false⟩, 5, 100⟩,
        ⟨⟨7, 1970, 1, 8, 3, 8, 2, 1, false⟩, 6, 120⟩] :
        List InRow).map (fun r => r.date.epochDay)).Nodup) ∧
    ((create_features ⟨fun _ => 0, fun _ => 0, fun _ => 0, fun _ => 0,
        fun _ => 0⟩ true
        [⟨⟨0, 1970, 1, 1, 3, 1, 1, 1, false⟩, 5, 100⟩,
         ⟨⟨7, 1970, 1, 8, 3, 8, 2, 1, false⟩, 6, 120⟩]).1.length = 2 ∧
     (∀ c ∈ (create_features ⟨fun _ => 0, fun _ => 0, fun _ => 0, fun _ => 0,
        fun _ => 0⟩ true
        [⟨⟨0, 1970, 1, 1, 3, 1, 1, 1, false⟩, 5, 100⟩,
         ⟨⟨7, 1970, 1, 8, 3, 8, 2, 1, false⟩, 6, 120⟩]).2,
        c.2.length = 2) ∧
     List.Chain' (fun a b : Date => a.epochDay < b.epochDay)
       (create_features ⟨fun _ => 0, fun _ => 0, fun _ => 0, fun _ => 0,
        fun _ => 0⟩ true
        [⟨⟨0, 1970, 1, 1, 3, 1, 1, 1, false⟩, 5, 100⟩,
         ⟨⟨7, 1970, 1, 8, 3, 8, 2, 1, false⟩, 6, 120⟩]).1 ∧
     (∀ c ∈ (create_features ⟨fun _ => 0, fun _ => 0, fun _ => 0, fun _ => 0,
        fun _ => 0⟩ true
        [⟨⟨0, 1970, 1, 1, 3, 1, 1, 1, false⟩, 5, 100⟩,
         ⟨⟨7, 1970, 1, 8, 3, 8, 2, 1, false⟩, 6, 120⟩]).2,
        ∀ v ∈ c.2, ∃ q, v = PVal.fin q)) :=
  ⟨by decide,
   C2_table_shape ⟨fun _ => 0, fun _ => 0, fun _ => 0, fun _ => 0, fun _ => 0⟩
     true
     [⟨⟨0, 1970, 1, 1, 3, 1, 1, 1, false⟩, 5, 100⟩,
      ⟨⟨7, 1970, 1, 8, 3, 8, 2, 1, false⟩, 6, 120⟩] (by decide)⟩

/-! ## Cleanup lemmas and claim theorems (C1) -/

theorem ffillAux_getD (prev : PVal) (l : List PVal) (i : ℕ)
    (hi : i < l.length) :
    (ffillAux prev l).getD i PVal.nan = lastNN prev (l.take (i + 1)) := by
  induction l generalizing prev i with
  | nil => simp at hi
  | cons x xs ih =>
      cases i with
      | zero => simp [ffillAux, lastNN]
      | succ n =>
          have hn : n < xs.length := by simpa using hi
          simp only [ffillAux, List.getD_cons_succ, List.take_succ_cons,
            lastNN, List.foldl_cons]
          exact ih _ n hn

theorem lastNN_ne_nan (prev : PVal) (m : List PVal)
    (h : ∃ x ∈ m, x ≠ PVal.nan) : lastNN prev m ≠ PVal.nan := by
  induction m generalizing prev with
  | nil => simp at h
  | cons x xs ih =>
      by_cases hxs : ∃ y ∈ xs, y ≠ PVal.nan
      · simpa [lastNN] using ih _ hxs
      · have hx : x ≠ PVal.nan := by
          obtain ⟨y, hy, hyn⟩ := h
          rcases List.mem_cons.mp hy with rfl | hmem
          · exact hyn
          · exact absurd ⟨y, hmem, hyn⟩ hxs
        have hall : ∀ y ∈ xs, y = PVal.nan := by
          intro y hy
          by_contra hyn
          exact hxs ⟨y, hy, hyn⟩
        have : lastNN x xs = x := by
          clear ih hx hxs h
          induction xs with
          | nil => rfl
          | cons z zs ihz =>
              rw [lastNN, List.foldl_cons, hall z (List.mem_cons_self z zs)]
              simp only [if_pos rfl]
              exact ihz (fun y hy => hall y (List.mem_cons_of_mem z hy))
        rw [lastNN, List.foldl_cons, if_neg hx]
        rw [lastNN] at this
        rw [this]
        exact hx

theorem ffillAux_getD_ne (prev : PVal) (l : List PVal) (i : ℕ)
    (hi : i < l.length) (h : l.getD i PVal.nan ≠ PVal.nan) :
    (ffillAux prev l).getD i PVal.nan = l.getD i PVal.nan := by
  rw [ffillAux_getD prev l i hi]
  have hsplit : l.take (i + 1) = l.take i ++ [l.getD i PVal.nan] := by
    rw [List.take_succ]
    congr
    rw [List.getD_eq_getElem l PVal.nan hi]
    simp [List.getElem?_eq_getElem hi]
  rw [hsplit, lastNN, List.foldl_append]
  rw [List.foldl_cons, List.foldl_nil, if_neg h]

theorem bfill_getD_of_ne (l : List PVal) (i : ℕ) (hi : i < l.length)
    (h : l.getD i PVal.nan ≠ PVal.nan) :
    (bfillCol l).getD i PVal.nan = l.getD i PVal.nan := by
  have h1 : (bfillCol l).length = l.length := by simp [bfillCol]
  have h2 : (ffillAux PVal.nan l.reverse).length = l.length := by simp
  have hj : l.length - 1 - i < l.reverse.length := by
    simp only [List.length_reverse]
    omega
  have hrevval : l.reverse.getD (l.length - 1 - i) PVal.nan =
      l.getD i PVal.nan := by
    rw [List.getD_eq_getElem _ _ hj, List.getElem_reverse,
      List.getD_eq_getElem _ _ hi]
    congr 1
    omega
  rw [List.getD_eq_getElem _ _ (by omega : i < (bfillCol l).length)]
  unfold bfillCol
  rw [List.getElem_reverse]
  have hidx : (ffillAux PVal.nan l.reverse).length - 1 - i =
      l.length - 1 - i := by omega
  rw [← List.getD_eq_getElem _ PVal.nan, hidx]
  rw [ffillAux_getD_ne _ _ _ (by simpa using hj) (by rw [hrevval]; exact h)]
  exact hrevval

theorem map_getD_of_lt {α β : Type} (f : α → β)
    (l : List α) (i : ℕ) (hi : i < l.length) (d : α) (e : β) :
    (l.map f).getD i e = f (l.getD i d) := by
  rw [List.getD_eq_getElem _ _ (by simpa using hi),
    List.getD_eq_getElem _ _ hi, List.getElem_map]

theorem cleanupCol_getD (l : List PVal) (i : ℕ) (hi : i < l.length) :
    (cleanupCol l).getD i PVal.nan =
      (fun v => if v = PVal.inf ∨ v = PVal.ninf then PVal.fin 0 else v)
        ((fun v => if v = PVal.nan then PVal.fin 0 else v)
          ((bfillCol (ffillCol l)).getD i PVal.nan)) := by
  have hb : i < (bfillCol (ffillCol l)).length := by
    simp [bfillCol, ffillCol]
    exact hi
  have hf : i < (fillZeroCol (bfillCol (ffillCol l))).length := by
    simp [fillZeroCol, bfillCol, ffillCol]
    exact hi
  unfold cleanupCol replaceInfCol fillZeroCol
  rw [map_getD_of_lt _ _ i (by simpa [fillZeroCol] using hf) PVal.nan PVal.nan,
    map_getD_of_lt _ _ i hb PVal.nan PVal.nan]

theorem cleanupCol_getD_eq (l1 l2 : List PVal) (i : ℕ)
    (h1 : i < l1.length) (h2 : i < l2.length)
    (htake : l1.take (i + 1) = l2.take (i + 1))
    (hnn : ∃ x ∈ l1.take (i + 1), x ≠ PVal.nan) :
    (cleanupCol l1).getD i PVal.nan = (cleanupCol l2).getD i PVal.nan := by
  have hff1 : (ffillCol l1).getD i PVal.nan = lastNN PVal.nan (l1.take (i + 1)) :=
    ffillAux_getD _ _ _ h1
  have hff2 : (ffillCol l2).getD i PVal.nan = lastNN PVal.nan (l2.take (i + 1)) :=
    ffillAux_getD _ _ _ h2
  have hval : (ffillCol l1).getD i PVal.nan = (ffillCol l2).getD i PVal.nan := by
    rw [hff1, hff2, htake]
  have hne : (ffillCol l1).getD i PVal.nan ≠ PVal.nan := by
    rw [hff1]
    exact lastNN_ne_nan _ _ hnn
  have hlf1 : i < (ffillCol l1).length := by
    simpa [ffillCol] using h1
  have hlf2 : i < (ffillCol l2).length := by
    simpa [ffillCol] using h2
  rw [cleanupCol_getD l1 i h1, cleanupCol_getD l2 i h2,
    bfill_getD_of_ne _ _ hlf1 hne, bfill_getD_of_ne _ _ hlf2 (hval ▸ hne),
    hval]

theorem dowAvgCol_getD (dows : List ℤ) (xs : List ℚ) (j : ℕ)
    (hj : j < xs.length) :
    (dowAvgCol dows xs).getD j PVal.nan =
      (if (((List.range j).filter
            (fun k => dows.getD k 0 = dows.getD j 0)).map
            (fun k => xs.getD k 0)).length = 0 then PVal.nan
       else PVal.fin ((((List.range j).filter
            (fun k => dows.getD k 0 = dows.getD j 0)).map
            (fun k => xs.getD k 0)).sum /
          (((List.range j).filter
            (fun k => dows.getD k 0 = dows.getD j 0)).map
            (fun k => xs.getD k 0)).length)) := by
  unfold dowAvgCol
  rw [map_getD_of_lt _ _ j (by simpa using hj) 0 PVal.nan]
  have hr : (List.range xs.length).getD j 0 = j := by
    rw [List.getD_eq_getElem _ _ (by simpa using hj), List.getElem_range]
  rw [hr]

theorem dowAvgCol_take_eq (dows : List ℤ) (v1 v2 : List ℚ) (i : ℕ)
    (hlen : v1.length = v2.length) (hi : i < v1.length)
    (hag : ∀ k, k < i → v1.getD k 0 = v2.getD k 0) :
    (dowAvgCol dows v1).take (i + 1) = (dowAvgCol dows v2).take (i + 1) := by
  apply List.ext_getElem
  · simp [hlen]
  · intro j hj1 hj2
    have hjle : j ≤ i := by
      simp only [List.length_take, dowAvgCol_length] at hj1
      omega
    have hjlt : j < v1.length := by omega
    rw [List.getElem_take, List.getElem_take,
      ← List.getD_eq_getElem _ PVal.nan, ← List.getD_eq_getElem _ PVal.nan,
      dowAvgCol_getD _ _ j hjlt, dowAvgCol_getD _ _ j (hlen ▸ hjlt)]
    have hpr : ((List.range j).filter
          (fun k => dows.getD k 0 = dows.getD j 0)).map
          (fun k => v1.getD k 0) =
        ((List.range j).filter
          (fun k => dows.getD k 0 = dows.getD j 0)).map
          (fun k => v2.getD k 0) := by
      apply List.map_congr_left
      intro k hk
      have hkj : k < j := List.mem_range.mp (List.mem_of_mem_filter hk)
      exact hag k (by omega)
    rw [hpr]

theorem dowAvgCol_getD_ne_nan (dows : List ℤ) (xs : List ℚ) (j k : ℕ)
    (hj : j < xs.length) (hk : k < j)
    (hdow : dows.getD k 0 = dows.getD j 0) :
    (dowAvgCol dows xs).getD j PVal.nan ≠ PVal.nan := by
  rw [dowAvgCol_getD _ _ j hj]
  have hkmem : k ∈ (List.range j).filter
      (fun k' => decide (dows.getD k' 0 = dows.getD j 0)) := by
    rw [List.mem_filter]
    exact ⟨List.mem_range.mpr hk, by simpa using hdow⟩
  have hne : (((List.range j).filter
      (fun k' => dows.getD k' 0 = dows.getD j 0)).map
      (fun k' => xs.getD k' 0)).length ≠ 0 := by
    rw [List.length_map]
    intro hzero
    rw [List.length_eq_zero] at hzero
    rw [hzero] at hkmem
    exact List.not_mem_nil k hkmem
  rw [if_neg hne]
  intro hcontra
  exact PVal.noConfusion hcontra

theorem create_features_dow_avg_visitor (cfg : FeatConfig) (iw : Bool)
    (rows : List InRow) :
    (create_features cfg iw rows).2.lookup "visitor_count_dow_avg" =
      some (cleanupCol (dowAvgCol
        (((List.insertionSort rowLE rows).map (fun r => r.date)).map
          (fun d => d.dayOfWeek))
        ((List.insertionSort rowLE rows).map (fun r => r.visitor_count)))) :=
  rfl

theorem create_features_dow_avg_sales (cfg : FeatConfig) (iw : Bool)
    (rows : List InRow) :
    (create_features cfg iw rows).2.lookup "sales_amount_dow_avg" =
      some (cleanupCol (dowAvgCol
        (((List.insertionSort rowLE rows).map (fun r => r.date)).map
          (fun d => d.dayOfWeek))
        ((List.insertionSort rowLE rows).map (fun r => r.sales_amount)))) :=
  rfl

theorem dow_avg_stable (dows : List ℤ) (v1 v2 : List ℚ) (i : ℕ)
    (hlen : v1.length = v2.length) (hi : i < v1.length)
    (hag : ∀ k, k ≠ i → v1.getD k 0 = v2.getD k 0)
    (hrep : ∃ j, j ≤ i ∧ ∃ k, k < j ∧ dows.getD k 0 = dows.getD j 0) :
    (cleanupCol (dowAvgCol dows v1)).getD i PVal.nan =
      (cleanupCol (dowAvgCol dows v2)).getD i PVal.nan := by
  apply cleanupCol_getD_eq
  · simpa using hi
  · simp only [dowAvgCol_length]
    omega
  · exact dowAvgCol_take_eq dows v1 v2 i hlen hi
      (fun k hk => hag k (by omega))
  · obtain ⟨j, hji, k, hkj, hdow⟩ := hrep
    have hjv : j < v1.length := by omega
    have hjlen : j < (dowAvgCol dows v1).length := by
      simp only [dowAvgCol_length]
      omega
    have hjt : j < ((dowAvgCol dows v1).take (i + 1)).length := by
      simp only [List.length_take, dowAvgCol_length]
      omega
    refine ⟨((dowAvgCol dows v1).take (i + 1)).get ⟨j, hjt⟩,
      List.get_mem _ _ hjt, ?_⟩
    rw [List.get_eq_getElem, List.getElem_take,
      ← List.getD_eq_getElem _ PVal.nan]
    exact dowAvgCol_getD_ne_nan dows v1 j k hjv hkj hdow

/-- C1 (amended): altering only row `i`'s target value never changes row
`i`'s own day-of-week seasonal average when some row at or before `i` already
has a prior same-weekday observation (so that row `i`'s `dow_avg` cell is
resolved by the raw value or by the forward fill, not by the backward
fill); this covers both targets. -/
theorem C1_dow_avg_no_leakage :
    (∀ (cfg : FeatConfig) (iw : Bool) (rows1 rows2 : List InRow) (i : ℕ),
      rows1.Pairwise rowLE →
      rows1.map (fun r => r.date) = rows2.map (fun r => r.date) →
      rows1.map (fun r => r.sales_amount) =
        rows2.map (fun r => r.sales_amount) →
      (∀ k, k ≠ i → (rows1.map (fun r => r.visitor_count)).getD k 0 =
        (rows2.map (fun r => r.visitor_count)).getD k 0) →
      i < rows1.length →
      (∃ j, j ≤ i ∧ ∃ k, k < j ∧
        (rows1.map (fun r => r.date.dayOfWeek)).getD k 0 =
        (rows1.map (fun r => r.date.dayOfWeek)).getD j 0) →
      colAt (create_features cfg iw rows1) "visitor_count_dow_avg" i =
        colAt (create_features cfg iw rows2) "visitor_count_dow_avg" i) ∧
    (∀ (cfg : FeatConfig) (iw : Bool) (rows1 rows2 : List InRow) (i : ℕ),
      rows1.Pairwise rowLE →
      rows1.map (fun r => r.date) = rows2.map (fun r => r.date) →
      rows1.map (fun r => r.visitor_count) =
        rows2.map (fun r => r.visitor_count) →
      (∀ k, k ≠ i → (rows1.map (fun r => r.sales_amount)).getD k 0 =
        (rows2.map (fun r => r.sales_amount)).getD k 0) →
      i < rows1.length →
      (∃ j, j ≤ i ∧ ∃ k, k < j ∧
        (rows1.map (fun r => r.date.dayOfWeek)).getD k 0 =
        (rows1.map (fun r => r.date.dayOfWeek)).getD j 0) →
      colAt (create_features cfg iw rows1) "sales_amount_dow_avg" i =
        colAt (create_features cfg iw rows2) "sales_amount_dow_avg" i) := by
  constructor
  · intro cfg iw rows1 rows2 i hs1 hdates hsales hvis hi hrep
    have hd1 : (rows1.map (fun r => r.date)).Pairwise
        (fun a b : Date => a.epochDay ≤ b.epochDay) :=
      List.pairwise_map.mpr hs1
    have hd2 : (rows2.map (fun r => r.date)).Pairwise
        (fun a b : Date => a.epochDay ≤ b.epochDay) := hdates ▸ hd1
    have hs2w := List.pairwise_map.mp hd2
    have hs2 : rows2.Pairwise rowLE := hs2w
    have he1 : List.insertionSort rowLE rows1 = rows1 :=
      List.Sorted.insertionSort_eq hs1
    have he2 : List.insertionSort rowLE rows2 = rows2 :=
      List.Sorted.insertionSort_eq hs2
    have hmm : (rows1.map (fun r => r.date)).map (fun d => d.dayOfWeek) =
        rows1.map (fun r => r.date.dayOfWeek) := by
      rw [List.map_map]
      rfl
    unfold colAt
    rw [create_features_dow_avg_visitor, create_features_dow_avg_visitor,
      he1, he2, ← hdates]
    simp only [Option.getD_some]
    apply dow_avg_stable
    · simpa using congrArg List.length hdates
    · simpa using hi
    · exact hvis
    · rw [hmm]
      exact hrep
  · intro cfg iw rows1 rows2 i hs1 hdates hvis hsales hi hrep
    have hd1 : (rows1.map (fun r => r.date)).Pairwise
        (fun a b : Date => a.epochDay ≤ b.epochDay) :=
      List.pairwise_map.mpr hs1
    have hd2 : (rows2.map (fun r => r.date)).Pairwise
        (fun a b : Date => a.epochDay ≤ b.epochDay) := hdates ▸ hd1
    have hs2w := List.pairwise_map.mp hd2
    have hs2 : rows2.Pairwise rowLE := hs2w
    have he1 : List.insertionSort rowLE rows1 = rows1 :=
      List.Sorted.insertionSort_eq hs1
    have he2 : List.insertionSort rowLE rows2 = rows2 :=
      List.Sorted.insertionSort_eq hs2
    have hmm : (rows1.map (fun r => r.date)).map (fun d => d.dayOfWeek) =
        rows1.map (fun r => r.date.dayOfWeek) := by
      rw [List.map_map]
      rfl
    unfold colAt
    rw [create_features_dow_avg_sales, create_features_dow_avg_sales,
      he1, he2, ← hdates]
    simp only [Option.getD_some]
    apply dow_avg_stable
    · simpa using congrArg List.length hdates
    · simpa using hi
    · exact hsales
    · rw [hmm]
      exact hrep

/-- Witness for C1 at a concrete two-row series (same weekday, dates 0 and
7): altering row 1's visitor count leaves row 1's `dow_avg` at 5, the
value of row 0. -/
theorem C1_dow_avg_no_leakage_witness :
    (([⟨⟨0, 1970, 1, 1, 3, 1, 1, 1, false⟩, 5, 100⟩,
       ⟨⟨7, 1970, 1, 8, 3, 8, 2, 1, false⟩, 6, 120⟩] :
       List InRow).Pairwise rowLE ∧
     ([⟨⟨0, 1970, 1, 1, 3, 1, 1, 1, false⟩, 5, 100⟩,
       ⟨⟨7, 1970, 1, 8, 3, 8, 2, 1, false⟩, 6, 120⟩] :
       List InRow).map (fun r => r.date) =
     ([⟨⟨0, 1970, 1, 1, 3, 1, 1, 1, false⟩, 5, 100⟩,
       ⟨⟨7, 1970, 1, 8, 3, 8, 2, 1, false⟩, 9, 120⟩] :
       List InRow).map (fun r => r.date) ∧
     (1 : ℕ) < 2) ∧
    colAt (create_features
        ⟨fun _ => 0, fun _ => 0, fun _ => 0, fun _ => 0, fun _ => 0⟩ false
        [⟨⟨0, 1970, 1, 1, 3, 1, 1, 1, false⟩, 5, 100⟩,
         ⟨⟨7, 1970, 1, 8, 3, 8, 2, 1, false⟩, 6, 120⟩])
      "visitor_count_dow_avg" 1 =
    colAt (create_features
        ⟨fun _ => 0, fun _ => 0, fun _ => 0, fun _ => 0, fun _ => 0⟩ false
        [⟨⟨0, 1970, 1, 1, 3, 1, 1, 1, false⟩, 5, 100⟩,
         ⟨⟨7, 1970, 1, 8, 3, 8, 2, 1, false⟩, 9, 120⟩])
      "visitor_count_dow_avg" 1 :=
  ⟨⟨by decide, by decide, by decide⟩,
   C1_dow_avg_no_leakage.1
     ⟨fun _ => 0, fun _ => 0, fun _ => 0, fun _ => 0, fun _ => 0⟩ false
     [⟨⟨0, 1970, 1, 1, 3, 1, 1, 1, false⟩, 5, 100⟩,
      ⟨⟨7, 1970, 1, 8, 3, 8, 2, 1, false⟩, 6, 120⟩]
     [⟨⟨0, 1970, 1, 1, 3, 1, 1, 1, false⟩, 5, 100⟩,
      ⟨⟨7, 1970, 1, 8, 3, 8, 2, 1, false⟩, 9, 120⟩] 1
     (by decide) (by decide) (by decide)
     (by intro k hk
         match k with
         | 0 => rfl
         | 1 => exact absurd rfl hk
         | (n + 2) => rfl)
     (by decide)
     ⟨1, le_refl 1, 0, by decide, by decide⟩⟩

/-- C1 counterexample: on the valid two-row series with both dates on the
same weekday, changing only row 0's visitor count changes row 0's own
`visitor_count_dow_avg` — the raw shifted expanding mean leaves row 0
missing, and the backward fill resolves it from row 1's average, which is
exactly row 0's value. -/
theorem C1_counterexample :
    (([⟨⟨0, 1970, 1, 1, 3, 1, 1, 1, false⟩, 5, 100⟩,
       ⟨⟨7, 1970, 1, 8, 3, 8, 2, 1, false⟩, 8, 120⟩] :
       List InRow).map (fun r => r.date) =
     ([⟨⟨0, 1970, 1, 1, 3, 1, 1, 1, false⟩, 6, 100⟩,
       ⟨⟨7, 1970, 1, 8, 3, 8, 2, 1, false⟩, 8, 120⟩] :
       List InRow).map (fun r => r.date)) ∧
    (([⟨⟨0, 1970, 1, 1, 3, 1, 1, 1, false⟩, 5, 100⟩,
       ⟨⟨7, 1970, 1, 8, 3, 8, 2, 1, false⟩, 8, 120⟩] :
       List InRow).map (fun r => r.sales_amount) =
     ([⟨⟨0, 1970, 1, 1, 3, 1, 1, 1, false⟩, 6, 100⟩,
       ⟨⟨7, 1970, 1, 8, 3, 8, 2, 1, false⟩, 8, 120⟩] :
       List InRow).map (fun r => r.sales_amount)) ∧
    (([⟨⟨0, 1970, 1, 1, 3, 1, 1, 1, false⟩, 5, 100⟩,
       ⟨⟨7, 1970, 1, 8, 3, 8, 2, 1, false⟩, 8, 120⟩] :
       List InRow).drop 1 =
     ([⟨⟨0, 1970, 1, 1, 3, 1, 1, 1, false⟩, 6, 100⟩,
       ⟨⟨7, 1970, 1, 8, 3, 8, 2, 1, false⟩, 8, 120⟩] :
       List InRow).drop 1) ∧
    ([⟨⟨0, 1970, 1, 1, 3, 1, 1, 1, false⟩, 5, 100⟩,
      ⟨⟨7, 1970, 1, 8, 3, 8, 2, 1, false⟩, 8, 120⟩] :
      List InRow).Pairwise rowLE ∧
    (([⟨⟨0, 1970, 1, 1, 3, 1, 1, 1, false⟩, 5, 100⟩,
       ⟨⟨7, 1970, 1, 8, 3, 8, 2, 1, false⟩, 8, 120⟩] :
       List InRow).map (fun r => r.date.epochDay)).Nodup ∧
    colAt (create_features
        ⟨fun _ => 0, fun _ => 0, fun _ => 0, fun _ => 0, fun _ => 0⟩ false
        [⟨⟨0, 1970, 1, 1, 3, 1, 1, 1, false⟩, 5, 100⟩,
         ⟨⟨7, 1970, 1, 8, 3, 8, 2, 1, false⟩, 8, 120⟩])
      "visitor_count_dow_avg" 0 ≠
    colAt (create_features
        ⟨fun _ => 0, fun _ => 0, fun _ => 0, fun _ => 0, fun _ => 0⟩ false
        [⟨⟨0, 1970, 1, 1, 3, 1, 1, 1, false⟩, 6, 100⟩,
         ⟨⟨7, 1970, 1, 8, 3, 8, 2, 1, false⟩, 8, 120⟩])
      "visitor_count_dow_avg" 0 := by
  have e1 : colAt (create_features
      ⟨fun _ => 0, fun _ => 0, fun _ => 0, fun _ => 0, fun _ => 0⟩ false
      [⟨⟨0, 1970, 1, 1, 3, 1, 1, 1, false⟩, 5, 100⟩,
       ⟨⟨7, 1970, 1, 8, 3, 8, 2, 1, false⟩, 8, 120⟩])
      "visitor_count_dow_avg" 0 = PVal.fin 5 := by
    unfold colAt
    rw [create_features_dow_avg_visitor]
    show (cleanupCol (dowAvgCol [3, 3] [5, 8])).getD 0 PVal.nan = PVal.fin 5
    have hdow : dowAvgCol [3, 3] [5, 8] = [PVal.nan, PVal.fin 5] := by
      simp [dowAvgCol, List.range_succ]
    rw [hdow]
    decide
  have e2 : colAt (create_features
      ⟨fun _ => 0, fun _ => 0, fun _ => 0, fun _ => 0, fun _ => 0⟩ false
      [⟨⟨0, 1970, 1, 1, 3, 1, 1, 1, false⟩, 6, 100⟩,
       ⟨⟨7, 1970, 1, 8, 3, 8, 2, 1, false⟩, 8, 120⟩])
      "visitor_count_dow_avg" 0 = PVal.fin 6 := by
    unfold colAt
    rw [create_features_dow_avg_visitor]
    show (cleanupCol (dowAvgCol [3, 3] [6, 8])).getD 0 PVal.nan = PVal.fin 6
    have hdow : dowAvgCol [3, 3] [6, 8] = [PVal.nan, PVal.fin 6] := by
      simp [dowAvgCol, List.range_succ]
    rw [hdow]
    decide
  refine ⟨by decide, by decide, by decide, by decide, by decide, ?_⟩
  rw [e1, e2]
  decide

/-! ## Prediction-feature lemmas and claim theorems (C6) -/

theorem lookup_none_of_keys {β : Type} (l : List (String × β)) (name : String)
    (h : ∀ p ∈ l, p.1 ≠ name) : l.lookup name = none := by
  induction l with
  | nil => rfl
  | cons p t ih =>
      obtain ⟨a, b⟩ := p
      rw [lookup_cons_ne (Ne.symm (h (a, b) (List.mem_cons_self _ _)))]
      exact ih (fun q hq => h q (List.mem_cons_of_mem _ hq))

theorem lookup_append_left_none {β : Type} (l₁ l₂ : List (String × β))
    (k : String) (h : l₁.lookup k = none) :
    (l₁ ++ l₂).lookup k = l₂.lookup k := by
  induction l₁ with
  | nil => rfl
  | cons p t ih =>
      obtain ⟨a, b⟩ := p
      by_cases ha : k = a
      · subst ha
        rw [lookup_cons_self] at h
        exact absurd h (by simp)
      · rw [List.cons_append, lookup_cons_ne ha]
        rw [lookup_cons_ne ha] at h
        exact ih h

theorem calendarNames_no_pattern :
    ∀ c ∈ calendarNames, hasPredPattern c = false := by
  decide

theorem lookup_calendarBlock_none (d : Date) (cfg : FeatConfig) (name : String)
    (h : name ∉ calendarNames) :
    (calendarBlock d cfg).lookup name = none := by
  apply lookup_none_of_keys
  intro p hp heq
  have hmem : p.1 ∈ (calendarBlock d cfg).map Prod.fst :=
    List.mem_map_of_mem Prod.fst hp
  have hkeys : (calendarBlock d cfg).map Prod.fst = calendarNames := rfl
  rw [hkeys, heq] at hmem
  exact h hmem

theorem lookup_carried (l : List (String × PVal)) (name : String) (v : PVal)
    (hnd : (l.map Prod.fst).Nodup) (hmem : (name, v) ∈ l)
    (hp : hasPredPattern name = true) :
    ((l.filter (fun c => hasPredPattern c.1)).map
      (fun c => (c.1, if c.2 = PVal.nan then PVal.fin 0 else c.2))).lookup
        name = some (if v = PVal.nan then PVal.fin 0 else v) := by
  induction l with
  | nil => exact absurd hmem (List.not_mem_nil _)
  | cons p t ih =>
      obtain ⟨a, b⟩ := p
      have hnd' : (t.map Prod.fst).Nodup := (List.nodup_cons.mp hnd).2
      rcases List.mem_cons.mp hmem with heq | hmem'
      · rw [Prod.mk.injEq] at heq
        obtain ⟨rfl, rfl⟩ := heq
        rw [List.filter_cons_of_pos (by simpa using hp), List.map_cons]
        exact lookup_cons_self _ _ _
      · have hne : a ≠ name := by
          intro hcontra
          subst hcontra
          have hmm : (a, v).1 ∈ t.map Prod.fst :=
            List.mem_map_of_mem Prod.fst hmem'
          exact (List.nodup_cons.mp hnd).1 hmm
        cases hpa : hasPredPattern a
        · rw [List.filter_cons_of_neg (by simpa using hpa)]
          exact ih hnd' hmem'
        · rw [List.filter_cons_of_pos (by simpa using hpa), List.map_cons,
            lookup_cons_ne (Ne.symm hne)]
          exact ih hnd' hmem'

theorem lookup_carried_none (l : List (String × PVal)) (name : String)
    (hp : hasPredPattern name = false) :
    ((l.filter (fun c => hasPredPattern c.1)).map
      (fun c => (c.1, if c.2 = PVal.nan then PVal.fin 0 else c.2))).lookup
        name = none := by
  apply lookup_none_of_keys
  intro p hpmem heq
  obtain ⟨c, hc, rfl⟩ := List.mem_map.mp hpmem
  have := List.of_mem_filter hc
  simp only at heq
  rw [heq] at this
  rw [hp] at this
  exact Bool.noConfusion this

/-- C6 (amended): the prediction row carries forward verbatim (missing as
0) exactly those columns of the last historical row whose name contains
one of the substrings "_ma", "_lag", "_std", "_trend", "_dow_avg",
"_pct_change" — among the engineered columns these are the rolling
means, rolling std and max, lags, percentage changes, trends and
day-of-week averages — and drops every other non-calendar column, in
particular the rolling-min, difference and week-over-week-growth
columns. -/
theorem C6_carry_forward (lastRow : List (String × PVal)) (d : Date)
    (cfg : FeatConfig) (hnd : (lastRow.map Prod.fst).Nodup) :
    (∀ name v, (name, v) ∈ lastRow → hasPredPattern name = true →
        (create_prediction_features lastRow d cfg none).lookup name =
          some (if v = PVal.nan then PVal.fin 0 else v)) ∧
    (∀ name : String, hasPredPattern name = false → name ∉ calendarNames →
        (create_prediction_features lastRow d cfg none).lookup name =
          none) := by
  constructor
  · intro name v hmem hp
    unfold create_prediction_features
    have hcal : (calendarBlock d cfg).lookup name = none := by
      apply lookup_calendarBlock_none
      intro hin
      have := calendarNames_no_pattern name hin
      rw [hp] at this
      exact Bool.noConfusion this
    rw [lookup_append_left_none _ _ _ hcal]
    exact lookup_carried lastRow name v hnd hmem hp
  · intro name hp hcalmem
    unfold create_prediction_features
    rw [lookup_append_left_none _ _ _
      (lookup_calendarBlock_none d cfg name hcalmem)]
    exact lookup_carried_none lastRow name hp

/-- Witness for C6: a last row holding a rolling-mean column and an
unmatched column: the former is carried verbatim, the latter dropped. -/
theorem C6_carry_forward_witness :
    ((([("visitor_count_ma7", PVal.fin 5), ("foo", PVal.fin 9)] :
        List (String × PVal)).map Prod.fst).Nodup ∧
     ("visitor_count_ma7", PVal.fin 5) ∈
       ([("visitor_count_ma7", PVal.fin 5), ("foo", PVal.fin 9)] :
        List (String × PVal)) ∧
     hasPredPattern "visitor_count_ma7" = true ∧
     hasPredPattern "foo" = false ∧ "foo" ∉ calendarNames) ∧
    (create_prediction_features
        [("visitor_count_ma7", PVal.fin 5), ("foo", PVal.fin 9)]
        ⟨0, 1970, 1, 1, 3, 1, 1, 1, false⟩
        ⟨fun _ => 0, fun _ => 0, fun _ => 0, fun _ => 0, fun _ => 0⟩
        none).lookup "visitor_count_ma7" =
      some (if PVal.fin 5 = PVal.nan then PVal.fin 0 else PVal.fin 5) ∧
    (create_prediction_features
        [("visitor_count_ma7", PVal.fin 5), ("foo", PVal.fin 9)]
        ⟨0, 1970, 1, 1, 3, 1, 1, 1, false⟩
        ⟨fun _ => 0, fun _ => 0, fun _ => 0, fun _ => 0, fun _ => 0⟩
        none).lookup "foo" = none :=
  ⟨⟨by decide, by decide, by decide, by decide, by decide⟩,
   (C6_carry_forward [("visitor_count_ma7", PVal.fin 5), ("foo", PVal.fin 9)]
      ⟨0, 1970, 1, 1, 3, 1, 1, 1, false⟩
      ⟨fun _ => 0, fun _ => 0, fun _ => 0, fun _ => 0, fun _ => 0⟩
      (by decide)).1 "visitor_count_ma7" (PVal.fin 5) (by decide) (by decide),
   (C6_carry_forward [("visitor_count_ma7", PVal.fin 5), ("foo", PVal.fin 9)]
      ⟨0, 1970, 1, 1, 3, 1, 1, 1, false⟩
      ⟨fun _ => 0, fun _ => 0, fun _ => 0, fun _ => 0, fun _ => 0⟩
      (by decide)).2 "foo" (by decide) (by decide)⟩

/-- C6 counterexample: `create_features` produces a difference column
(`visitor_count_diff1`), but `create_prediction_features` does not carry
it forward — its name matches none of the six patterns, so the claim that
every difference/min/growth column is carried verbatim fails. -/
theorem C6_counterexample :
    "visitor_count_diff1" ∈ (create_features
        ⟨fun _ => 0, fun _ => 0, fun _ => 0, fun _ => 0, fun _ => 0⟩ false
        [⟨⟨0, 1970, 1, 1, 3, 1, 1, 1, false⟩, 5, 100⟩,
         ⟨⟨7, 1970, 1, 8, 3, 8, 2, 1, false⟩, 8, 120⟩]).2.map Prod.fst ∧
    (([("visitor_count_diff1", PVal.fin 3)] :
        List (String × PVal)).lookup "visitor_count_diff1" =
      some (PVal.fin 3)) ∧
    (create_prediction_features [("visitor_count_diff1", PVal.fin 3)]
        ⟨8, 1970, 1, 9, 4, 9, 2, 1, false⟩
        ⟨fun _ => 0, fun _ => 0, fun _ => 0, fun _ => 0, fun _ => 0⟩
        none).lookup "visitor_count_diff1" = none :=
  ⟨by decide, by decide, by decide⟩
